import Mathlib

/-!
Shallow embedding of the `philips` package of the klimat repository
(`src/philips/message.go`, `src/philips/device.go`) together with the
standard-library cryptographic primitives it calls (MD5, SHA-256 and
AES-128 in CBC mode, all embedded from their public specifications,
FIPS-197 / RFC 1321 / FIPS-180-4, which is what Go's `crypto/*`
packages implement).

Bytes are modelled as `Nat` values kept below 256; byte strings are
`List Nat` in the order of the Go slices.  Go's `uint32` arithmetic is
modelled with explicit `% 2^32`.  Fallible Go functions returning
`(T, error)` are modelled with `Except MsgError T`; the `panic` of
`cipher.BlockMode.CryptBlocks` on input that is not a multiple of the
block size is modelled as `Option.none` of the block layer (surfaced
as `MsgError.decryptFailure`).
-/

namespace Klimat

/-- All entries of a byte string are below 256 (the Go `byte` type). -/
def BytesOK (l : List Nat) : Prop := ∀ b ∈ l, b < 256

instance : DecidablePred BytesOK := fun l =>
  inferInstanceAs (Decidable (∀ b ∈ l, b < 256))

/-! ## Hexadecimal encoding and decoding (`encoding/hex`, `strconv.ParseUint`) -/

/-- Uppercase hexadecimal digit of a value below 16 (ASCII code). -/
def hexDigU (d : Nat) : Nat :=
  if d < 10 then 48 + d else 55 + d

/-- Value of one ASCII hexadecimal digit, `none` for a non-digit.
Both letter cases are accepted, as by Go's `encoding/hex` and
`strconv.ParseUint`. -/
def hexVal (c : Nat) : Option Nat :=
  if 48 ≤ c ∧ c ≤ 57 then some (c - 48)
  else if 97 ≤ c ∧ c ≤ 102 then some (c - 87)
  else if 65 ≤ c ∧ c ≤ 70 then some (c - 55)
  else none

/-- Uppercase hex encoding of a byte string: two ASCII characters per
byte, high nibble first.  Models `strings.ToUpper(hex.EncodeToString b)`. -/
def hexUpper (l : List Nat) : List Nat :=
  l.foldr (fun b acc => hexDigU (b / 16) :: hexDigU (b % 16) :: acc) []

/-- Hex decoding of an ASCII string into bytes.  Fails (like Go's
`hex.DecodeString`) on odd length or on any non-hex character. -/
def hexDecode : List Nat → Option (List Nat)
  | [] => some []
  | [_] => none
  | c1 :: c2 :: rest =>
    match hexVal c1, hexVal c2, hexDecode rest with
    | some hi, some lo, some tl => some ((16 * hi + lo) :: tl)
    | _, _, _ => none

/-! ## 32-bit word helpers for the hash functions -/

/-- Truncation to 32 bits. -/
def w32 (x : Nat) : Nat := x % 2 ^ 32

/-- Bitwise complement of a 32-bit word. -/
def not32 (x : Nat) : Nat := x ^^^ 0xFFFFFFFF

/-- Rotate a 32-bit word left by `n` bits. -/
def rotl32 (x n : Nat) : Nat := w32 (x <<< n) ||| (x >>> (32 - n))

/-- Rotate a 32-bit word right by `n` bits. -/
def rotr32 (x n : Nat) : Nat := (x >>> n) ||| w32 (x <<< (32 - n))

/-- Little-endian bytes of a 32-bit word. -/
def wordLE (x : Nat) : List Nat :=
  [x % 256, x / 2 ^ 8 % 256, x / 2 ^ 16 % 256, x / 2 ^ 24 % 256]

/-- Big-endian bytes of a 32-bit word. -/
def wordBE (x : Nat) : List Nat :=
  [x / 2 ^ 24 % 256, x / 2 ^ 16 % 256, x / 2 ^ 8 % 256, x % 256]

/-- Read the `i`-th little-endian 32-bit word of a byte string. -/
def getWordLE (l : List Nat) (i : Nat) : Nat :=
  l.getD (4 * i) 0 + 2 ^ 8 * l.getD (4 * i + 1) 0 +
  2 ^ 16 * l.getD (4 * i + 2) 0 + 2 ^ 24 * l.getD (4 * i + 3) 0

/-- Read the `i`-th big-endian 32-bit word of a byte string. -/
def getWordBE (l : List Nat) (i : Nat) : Nat :=
  2 ^ 24 * l.getD (4 * i) 0 + 2 ^ 16 * l.getD (4 * i + 1) 0 +
  2 ^ 8 * l.getD (4 * i + 2) 0 + l.getD (4 * i + 3) 0

/-- Merkle–Damgård padding shared by MD5 and SHA-256: append `0x80`,
then zeros until the length is 56 mod 64, then the original bit length
as an 8-byte integer (little-endian for MD5, big-endian for SHA-256). -/
def mdPad (littleEndian : Bool) (msg : List Nat) : List Nat :=
  let bitLen := 8 * msg.length % 2 ^ 64
  let zeros := (55 + 64 - msg.length % 64) % 64
  let lenBytes :=
    [bitLen % 256, bitLen / 2 ^ 8 % 256, bitLen / 2 ^ 16 % 256,
     bitLen / 2 ^ 24 % 256, bitLen / 2 ^ 32 % 256, bitLen / 2 ^ 40 % 256,
     bitLen / 2 ^ 48 % 256, bitLen / 2 ^ 56 % 256]
  msg ++ 128 :: List.replicate zeros 0 ++
    (if littleEndian then lenBytes else lenBytes.reverse)

/-! ## MD5 (RFC 1321, the algorithm behind Go's `crypto/md5`) -/

/-- The 64 MD5 sine-derived constants. -/
def md5K : List Nat :=
  [3614090360, 3905402710, 606105819, 3250441966, 4118548399, 1200080426, 2821735955, 4249261313,
   1770035416, 2336552879, 4294925233, 2304563134, 1804603682, 4254626195, 2792965006, 1236535329,
   4129170786, 3225465664, 643717713, 3921069994, 3593408605, 38016083, 3634488961, 3889429448,
   568446438, 3275163606, 4107603335, 1163531501, 2850285829, 4243563512, 1735328473, 2368359562,
   4294588738, 2272392833, 1839030562, 4259657740, 2763975236, 1272893353, 4139469664, 3200236656,
   681279174, 3936430074, 3572445317, 76029189, 3654602809, 3873151461, 530742520, 3299628645,
   4096336452, 1126891415, 2878612391, 4237533241, 1700485571, 2399980690, 4293915773, 2240044497,
   1873313359, 4264355552, 2734768916, 1309151649, 4149444226, 3174756917, 718787259, 3951481745]

/-- The 64 MD5 per-round left-rotation amounts. -/
def md5S : List Nat :=
  [7, 12, 17, 22, 7, 12, 17, 22, 7, 12, 17, 22, 7, 12, 17, 22,
   5, 9, 14, 20, 5, 9, 14, 20, 5, 9, 14, 20, 5, 9, 14, 20,
   4, 11, 16, 23, 4, 11, 16, 23, 4, 11, 16, 23, 4, 11, 16, 23,
   6, 10, 15, 21, 6, 10, 15, 21, 6, 10, 15, 21, 6, 10, 15, 21]

/-- One of the 64 MD5 operations, acting on the running `(a,b,c,d)`. -/
def md5Op (m : List Nat) (st : Nat × Nat × Nat × Nat) (i : Nat) :
    Nat × Nat × Nat × Nat :=
  let (a, b, c, d) := st
  let f :=
    if i < 16 then (b &&& c) ||| (not32 b &&& d)
    else if i < 32 then (d &&& b) ||| (not32 d &&& c)
    else if i < 48 then b ^^^ c ^^^ d
    else c ^^^ (b ||| not32 d)
  let g :=
    if i < 16 then i
    else if i < 32 then (5 * i + 1) % 16
    else if i < 48 then (3 * i + 5) % 16
    else 7 * i % 16
  let t := w32 (f + a + md5K.getD i 0 + getWordLE m g)
  (d, w32 (b + rotl32 t (md5S.getD i 0)), b, c)

/-- Absorb one 64-byte MD5 block into the state. -/
def md5Block (st : Nat × Nat × Nat × Nat) (m : List Nat) :
    Nat × Nat × Nat × Nat :=
  let (a0, b0, c0, d0) := st
  let (a, b, c, d) := (List.range 64).foldl (md5Op m) st
  (w32 (a0 + a), w32 (b0 + b), w32 (c0 + c), w32 (d0 + d))

/-- Absorb `fuel` 64-byte blocks of `l`. -/
def md5Blocks : Nat → (Nat × Nat × Nat × Nat) → List Nat →
    Nat × Nat × Nat × Nat
  | 0, st, _ => st
  | fuel + 1, st, l => md5Blocks fuel (md5Block st (l.take 64)) (l.drop 64)

/-- The 16-byte MD5 digest of a byte string (`md5.Sum`). -/
def md5Bytes (msg : List Nat) : List Nat :=
  let p := mdPad true msg
  let (a, b, c, d) :=
    md5Blocks (p.length / 64) (0x67452301, 0xefcdab89, 0x98badcfe, 0x10325476) p
  wordLE a ++ wordLE b ++ wordLE c ++ wordLE d

/-! ## SHA-256 (FIPS 180-4, the algorithm behind Go's `crypto/sha256`) -/

/-- The 64 SHA-256 round constants. -/
def sha256K : List Nat :=
  [1116352408, 1899447441, 3049323471, 3921009573, 961987163, 1508970993, 2453635748, 2870763221,
   3624381080, 310598401, 607225278, 1426881987, 1925078388, 2162078206, 2614888103, 3248222580,
   3835390401, 4022224774, 264347078, 604807628, 770255983, 1249150122, 1555081692, 1996064986,
   2554220882, 2821834349, 2952996808, 3210313671, 3336571891, 3584528711, 113926993, 338241895,
   666307205, 773529912, 1294757372, 1396182291, 1695183700, 1986661051, 2177026350, 2456956037,
   2730485921, 2820302411, 3259730800, 3345764771, 3516065817, 3600352804, 4094571909, 275423344,
   430227734, 506948616, 659060556, 883997877, 958139571, 1322822218, 1537002063, 1747873779,
   1955562222, 2024104815, 2227730452, 2361852424, 2428436474, 2756734187, 3204031479, 3329325298]

/-- The SHA-256 message schedule: the 16 block words extended to 64. -/
def sha256Schedule (m : List Nat) : List Nat :=
  (List.range 48).foldl
    (fun ws t =>
      let s0 := rotr32 (ws.getD (t + 1) 0) 7 ^^^ rotr32 (ws.getD (t + 1) 0) 18 ^^^
        (ws.getD (t + 1) 0) >>> 3
      let s1 := rotr32 (ws.getD (t + 14) 0) 17 ^^^ rotr32 (ws.getD (t + 14) 0) 19 ^^^
        (ws.getD (t + 14) 0) >>> 10
      ws ++ [w32 (ws.getD t 0 + s0 + ws.getD (t + 9) 0 + s1)])
    ((List.range 16).map (getWordBE m))

/-- One SHA-256 compression round. -/
def sha256Round (ws : List Nat)
    (st : Nat × Nat × Nat × Nat × Nat × Nat × Nat × Nat) (t : Nat) :
    Nat × Nat × Nat × Nat × Nat × Nat × Nat × Nat :=
  let (a, b, c, d, e, f, g, h) := st
  let s1 := rotr32 e 6 ^^^ rotr32 e 11 ^^^ rotr32 e 25
  let ch := (e &&& f) ^^^ (not32 e &&& g)
  let t1 := w32 (h + s1 + ch + sha256K.getD t 0 + ws.getD t 0)
  let s0 := rotr32 a 2 ^^^ rotr32 a 13 ^^^ rotr32 a 22
  let mj := (a &&& b) ^^^ (a &&& c) ^^^ (b &&& c)
  let t2 := w32 (s0 + mj)
  (w32 (t1 + t2), a, b, c, w32 (d + t1), e, f, g)

/-- Absorb one 64-byte SHA-256 block into the state. -/
def sha256Block (st : Nat × Nat × Nat × Nat × Nat × Nat × Nat × Nat)
    (m : List Nat) : Nat × Nat × Nat × Nat × Nat × Nat × Nat × Nat :=
  let ws := sha256Schedule m
  let (a0, b0, c0, d0, e0, f0, g0, h0) := st
  let (a, b, c, d, e, f, g, h) := (List.range 64).foldl (sha256Round ws) st
  (w32 (a0 + a), w32 (b0 + b), w32 (c0 + c), w32 (d0 + d),
   w32 (e0 + e), w32 (f0 + f), w32 (g0 + g), w32 (h0 + h))

/-- Absorb `fuel` 64-byte blocks of `l`. -/
def sha256Blocks : Nat → (Nat × Nat × Nat × Nat × Nat × Nat × Nat × Nat) →
    List Nat → Nat × Nat × Nat × Nat × Nat × Nat × Nat × Nat
  | 0, st, _ => st
  | fuel + 1, st, l => sha256Blocks fuel (sha256Block st (l.take 64)) (l.drop 64)

/-- The 32-byte SHA-256 digest of a byte string (`sha256.Sum256`). -/
def sha256Bytes (msg : List Nat) : List Nat :=
  let p := mdPad false msg
  let (a, b, c, d, e, f, g, h) :=
    sha256Blocks (p.length / 64)
      (1779033703, 3144134277, 1013904242, 2773480762,
       1359893119, 2600822924, 528734635, 1541459225) p
  wordBE a ++ wordBE b ++ wordBE c ++ wordBE d ++
  wordBE e ++ wordBE f ++ wordBE g ++ wordBE h

/-! ## AES-128 (FIPS 197, the algorithm behind Go's `crypto/aes`)

The state is the 16-byte block `b0..b15` in input order; in the
FIPS-197 matrix the byte `b(r + 4*c)` sits at row `r`, column `c`. -/

/-- The AES S-box. -/
def sboxT : List Nat :=
  [99, 124, 119, 123, 242, 107, 111, 197, 48, 1, 103, 43, 254, 215, 171, 118,
   202, 130, 201, 125, 250, 89, 71, 240, 173, 212, 162, 175, 156, 164, 114, 192,
   183, 253, 147, 38, 54, 63, 247, 204, 52, 165, 229, 241, 113, 216, 49, 21,
   4, 199, 35, 195, 24, 150, 5, 154, 7, 18, 128, 226, 235, 39, 178, 117,
   9, 131, 44, 26, 27, 110, 90, 160, 82, 59, 214, 179, 41, 227, 47, 132,
   83, 209, 0, 237, 32, 252, 177, 91, 106, 203, 190, 57, 74, 76, 88, 207,
   208, 239, 170, 251, 67, 77, 51, 133, 69, 249, 2, 127, 80, 60, 159, 168,
   81, 163, 64, 143, 146, 157, 56, 245, 188, 182, 218, 33, 16, 255, 243, 210,
   205, 12, 19, 236, 95, 151, 68, 23, 196, 167, 126, 61, 100, 93, 25, 115,
   96, 129, 79, 220, 34, 42, 144, 136, 70, 238, 184, 20, 222, 94, 11, 219,
   224, 50, 58, 10, 73, 6, 36, 92, 194, 211, 172, 98, 145, 149, 228, 121,
   231, 200, 55, 109, 141, 213, 78, 169, 108, 86, 244, 234, 101, 122, 174, 8,
   186, 120, 37, 46, 28, 166, 180, 198, 232, 221, 116, 31, 75, 189, 139, 138,
   112, 62, 181, 102, 72, 3, 246, 14, 97, 53, 87, 185, 134, 193, 29, 158,
   225, 248, 152, 17, 105, 217, 142, 148, 155, 30, 135, 233, 206, 85, 40, 223,
   140, 161, 137, 13, 191, 230, 66, 104, 65, 153, 45, 15, 176, 84, 187, 22]

/-- The inverse AES S-box. -/
def invSboxT : List Nat :=
  [82, 9, 106, 213, 48, 54, 165, 56, 191, 64, 163, 158, 129, 243, 215, 251,
   124, 227, 57, 130, 155, 47, 255, 135, 52, 142, 67, 68, 196, 222, 233, 203,
   84, 123, 148, 50, 166, 194, 35, 61, 238, 76, 149, 11, 66, 250, 195, 78,
   8, 46, 161, 102, 40, 217, 36, 178, 118, 91, 162, 73, 109, 139, 209, 37,
   114, 248, 246, 100, 134, 104, 152, 22, 212, 164, 92, 204, 93, 101, 182, 146,
   108, 112, 72, 80, 253, 237, 185, 218, 94, 21, 70, 87, 167, 141, 157, 132,
   144, 216, 171, 0, 140, 188, 211, 10, 247, 228, 88, 5, 184, 179, 69, 6,
   208, 44, 30, 143, 202, 63, 15, 2, 193, 175, 189, 3, 1, 19, 138, 107,
   58, 145, 17, 65, 79, 103, 220, 234, 151, 242, 207, 206, 240, 180, 230, 115,
   150, 172, 116, 34, 231, 173, 53, 133, 226, 249, 55, 232, 28, 117, 223, 110,
   71, 241, 26, 113, 29, 41, 197, 137, 111, 183, 98, 14, 170, 24, 190, 27,
   252, 86, 62, 75, 198, 210, 121, 32, 154, 219, 192, 254, 120, 205, 90, 244,
   31, 221, 168, 51, 136, 7, 199, 49, 177, 18, 16, 89, 39, 128, 236, 95,
   96, 81, 127, 169, 25, 181, 74, 13, 45, 229, 122, 159, 147, 201, 156, 239,
   160, 224, 59, 77, 174, 42, 245, 176, 200, 235, 187, 60, 131, 83, 153, 97,
   23, 43, 4, 126, 186, 119, 214, 38, 225, 105, 20, 99, 85, 33, 12, 125]

/-- S-box substitution of one byte. -/
def sub (b : Nat) : Nat := sboxT.getD b 0

/-- Inverse S-box substitution of one byte. -/
def invSub (b : Nat) : Nat := invSboxT.getD b 0

/-- Multiplication by `x` in GF(2^8) modulo `x^8 + x^4 + x^3 + x + 1`
(the `xtime` operation of FIPS-197). -/
def xt (b : Nat) : Nat := 2 * b % 256 ^^^ (if 128 ≤ b then 27 else 0)

/-- Multiplication by 2 in GF(2^8). -/
def mul2 (b : Nat) : Nat := xt b

/-- Multiplication by 3 in GF(2^8). -/
def mul3 (b : Nat) : Nat := xt b ^^^ b

/-- Multiplication by 9 in GF(2^8). -/
def mul9 (b : Nat) : Nat := xt (xt (xt b)) ^^^ b

/-- Multiplication by 11 in GF(2^8). -/
def mul11 (b : Nat) : Nat := xt (xt (xt b)) ^^^ xt b ^^^ b

/-- Multiplication by 13 in GF(2^8). -/
def mul13 (b : Nat) : Nat := xt (xt (xt b)) ^^^ xt (xt b) ^^^ b

/-- Multiplication by 14 in GF(2^8). -/
def mul14 (b : Nat) : Nat := xt (xt (xt b)) ^^^ xt (xt b) ^^^ xt b

/-- The AES state: one 16-byte block. -/
structure St where
  b0 : Nat
  b1 : Nat
  b2 : Nat
  b3 : Nat
  b4 : Nat
  b5 : Nat
  b6 : Nat
  b7 : Nat
  b8 : Nat
  b9 : Nat
  b10 : Nat
  b11 : Nat
  b12 : Nat
  b13 : Nat
  b14 : Nat
  b15 : Nat
deriving DecidableEq, Repr

/-- The all-zero state. -/
def stZero : St := ⟨0, 0, 0, 0, 0, 0, 0, 0, 0, 0, 0, 0, 0, 0, 0, 0⟩

/-- All sixteen bytes of the state are below 256. -/
def StOK (s : St) : Prop :=
  s.b0 < 256 ∧ s.b1 < 256 ∧ s.b2 < 256 ∧ s.b3 < 256 ∧
  s.b4 < 256 ∧ s.b5 < 256 ∧ s.b6 < 256 ∧ s.b7 < 256 ∧
  s.b8 < 256 ∧ s.b9 < 256 ∧ s.b10 < 256 ∧ s.b11 < 256 ∧
  s.b12 < 256 ∧ s.b13 < 256 ∧ s.b14 < 256 ∧ s.b15 < 256

instance : DecidablePred StOK := fun s => by unfold StOK; infer_instance

/-- SubBytes. -/
def subBytes (s : St) : St :=
  ⟨sub s.b0, sub s.b1, sub s.b2, sub s.b3, sub s.b4, sub s.b5, sub s.b6,
   sub s.b7, sub s.b8, sub s.b9, sub s.b10, sub s.b11, sub s.b12, sub s.b13,
   sub s.b14, sub s.b15⟩

/-- InvSubBytes. -/
def invSubBytes (s : St) : St :=
  ⟨invSub s.b0, invSub s.b1, invSub s.b2, invSub s.b3, invSub s.b4,
   invSub s.b5, invSub s.b6, invSub s.b7, invSub s.b8, invSub s.b9,
   invSub s.b10, invSub s.b11, invSub s.b12, invSub s.b13, invSub s.b14,
   invSub s.b15⟩

/-- ShiftRows: row `r` of the state matrix is rotated left by `r`. -/
def shiftRows (s : St) : St :=
  ⟨s.b0, s.b5, s.b10, s.b15, s.b4, s.b9, s.b14, s.b3,
   s.b8, s.b13, s.b2, s.b7, s.b12, s.b1, s.b6, s.b11⟩

/-- InvShiftRows: row `r` of the state matrix is rotated right by `r`. -/
def invShiftRows (s : St) : St :=
  ⟨s.b0, s.b13, s.b10, s.b7, s.b4, s.b1, s.b14, s.b11,
   s.b8, s.b5, s.b2, s.b15, s.b12, s.b9, s.b6, s.b3⟩

/-- MixColumns on one column. -/
def mixCol (a b c d : Nat) : Nat × Nat × Nat × Nat :=
  (mul2 a ^^^ mul3 b ^^^ c ^^^ d,
   a ^^^ mul2 b ^^^ mul3 c ^^^ d,
   a ^^^ b ^^^ mul2 c ^^^ mul3 d,
   mul3 a ^^^ b ^^^ c ^^^ mul2 d)

/-- InvMixColumns on one column. -/
def invMixCol (a b c d : Nat) : Nat × Nat × Nat × Nat :=
  (mul14 a ^^^ mul11 b ^^^ mul13 c ^^^ mul9 d,
   mul9 a ^^^ mul14 b ^^^ mul11 c ^^^ mul13 d,
   mul13 a ^^^ mul9 b ^^^ mul14 c ^^^ mul11 d,
   mul11 a ^^^ mul13 b ^^^ mul9 c ^^^ mul14 d)

/-- MixColumns. -/
def mixColumns (s : St) : St :=
  let (c0, c1, c2, c3) := mixCol s.b0 s.b1 s.b2 s.b3
  let (c4, c5, c6, c7) := mixCol s.b4 s.b5 s.b6 s.b7
  let (c8, c9, c10, c11) := mixCol s.b8 s.b9 s.b10 s.b11
  let (c12, c13, c14, c15) := mixCol s.b12 s.b13 s.b14 s.b15
  ⟨c0, c1, c2, c3, c4, c5, c6, c7, c8, c9, c10, c11, c12, c13, c14, c15⟩

/-- InvMixColumns. -/
def invMixColumns (s : St) : St :=
  let (c0, c1, c2, c3) := invMixCol s.b0 s.b1 s.b2 s.b3
  let (c4, c5, c6, c7) := invMixCol s.b4 s.b5 s.b6 s.b7
  let (c8, c9, c10, c11) := invMixCol s.b8 s.b9 s.b10 s.b11
  let (c12, c13, c14, c15) := invMixCol s.b12 s.b13 s.b14 s.b15
  ⟨c0, c1, c2, c3, c4, c5, c6, c7, c8, c9, c10, c11, c12, c13, c14, c15⟩

/-- AddRoundKey: bytewise exclusive or with a round key. -/
def addKey (s k : St) : St :=
  ⟨s.b0 ^^^ k.b0, s.b1 ^^^ k.b1, s.b2 ^^^ k.b2, s.b3 ^^^ k.b3,
   s.b4 ^^^ k.b4, s.b5 ^^^ k.b5, s.b6 ^^^ k.b6, s.b7 ^^^ k.b7,
   s.b8 ^^^ k.b8, s.b9 ^^^ k.b9, s.b10 ^^^ k.b10, s.b11 ^^^ k.b11,
   s.b12 ^^^ k.b12, s.b13 ^^^ k.b13, s.b14 ^^^ k.b14, s.b15 ^^^ k.b15⟩

/-- A 32-bit key-schedule word as four bytes. -/
def W := Nat × Nat × Nat × Nat

/-- Bytewise exclusive or of two key-schedule words. -/
def xorW (a b : W) : W :=
  (a.1 ^^^ b.1, a.2.1 ^^^ b.2.1, a.2.2.1 ^^^ b.2.2.1, a.2.2.2 ^^^ b.2.2.2)

/-- SubWord after RotWord, the transformation applied every fourth word. -/
def subRotW (a : W) : W := (sub a.2.1, sub a.2.2.1, sub a.2.2.2, sub a.1)


/-- All four bytes of a key-schedule word are below 256. -/
def WOK (w : W) : Prop :=
  w.1 < 256 ∧ w.2.1 < 256 ∧ w.2.2.1 < 256 ∧ w.2.2.2 < 256

/-- The AES-128 round-constant bytes. -/
def rconT : List Nat := [1, 2, 4, 8, 16, 32, 64, 128, 27, 54]

/-- Word `i` of the key schedule from words `i-4` and `i-1`. -/
def nextW (w4 w1 : W) (i : Nat) : W :=
  if i % 4 = 0 then
    xorW w4 (xorW (subRotW w1) (rconT.getD (i / 4 - 1) 0, 0, 0, 0))
  else xorW w4 w1

/-- Generate `fuel` further key-schedule words from the sliding window
of the last four. -/
def expandGo : Nat → Nat → W × W × W × W → List W → List W
  | 0, _, _, acc => acc.reverse
  | fuel + 1, i, (w0, w1, w2, w3), acc =>
    let nw := nextW w0 w3 i
    expandGo fuel (i + 1) (w1, w2, w3, nw) (nw :: acc)

/-- The 44 words of the AES-128 key schedule. -/
def keyWords (key : List Nat) : List W :=
  let w0 : W := (key.getD 0 0, key.getD 1 0, key.getD 2 0, key.getD 3 0)
  let w1 : W := (key.getD 4 0, key.getD 5 0, key.getD 6 0, key.getD 7 0)
  let w2 : W := (key.getD 8 0, key.getD 9 0, key.getD 10 0, key.getD 11 0)
  let w3 : W := (key.getD 12 0, key.getD 13 0, key.getD 14 0, key.getD 15 0)
  [w0, w1, w2, w3] ++ expandGo 40 4 (w0, w1, w2, w3) []

/-- Assemble one round key from four schedule words. -/
def stOfW (a b c d : W) : St :=
  ⟨a.1, a.2.1, a.2.2.1, a.2.2.2, b.1, b.2.1, b.2.2.1, b.2.2.2,
   c.1, c.2.1, c.2.2.1, c.2.2.2, d.1, d.2.1, d.2.2.1, d.2.2.2⟩

/-- The eleven AES-128 round keys derived from a 16-byte key. -/
def roundKeys (key : List Nat) : List St :=
  let ws := keyWords key
  (List.range 11).map fun r =>
    stOfW (ws.getD (4 * r) (0, 0, 0, 0)) (ws.getD (4 * r + 1) (0, 0, 0, 0))
      (ws.getD (4 * r + 2) (0, 0, 0, 0)) (ws.getD (4 * r + 3) (0, 0, 0, 0))

/-- One full encryption round. -/
def encRound (s k : St) : St := addKey (mixColumns (shiftRows (subBytes s))) k

/-- One full decryption round of the inverse cipher. -/
def decRound (s k : St) : St :=
  invMixColumns (addKey (invSubBytes (invShiftRows s)) k)

/-- The AES-128 block cipher (FIPS-197 `Cipher`). -/
def cipher (rks : List St) (st : St) : St :=
  let s0 := addKey st (rks.getD 0 stZero)
  let s1 := encRound s0 (rks.getD 1 stZero)
  let s2 := encRound s1 (rks.getD 2 stZero)
  let s3 := encRound s2 (rks.getD 3 stZero)
  let s4 := encRound s3 (rks.getD 4 stZero)
  let s5 := encRound s4 (rks.getD 5 stZero)
  let s6 := encRound s5 (rks.getD 6 stZero)
  let s7 := encRound s6 (rks.getD 7 stZero)
  let s8 := encRound s7 (rks.getD 8 stZero)
  let s9 := encRound s8 (rks.getD 9 stZero)
  addKey (shiftRows (subBytes s9)) (rks.getD 10 stZero)

/-- The AES-128 inverse block cipher (FIPS-197 `InvCipher`). -/
def decipher (rks : List St) (ct : St) : St :=
  let t10 := addKey ct (rks.getD 10 stZero)
  let t9 := decRound t10 (rks.getD 9 stZero)
  let t8 := decRound t9 (rks.getD 8 stZero)
  let t7 := decRound t8 (rks.getD 7 stZero)
  let t6 := decRound t7 (rks.getD 6 stZero)
  let t5 := decRound t6 (rks.getD 5 stZero)
  let t4 := decRound t5 (rks.getD 4 stZero)
  let t3 := decRound t4 (rks.getD 3 stZero)
  let t2 := decRound t3 (rks.getD 2 stZero)
  let t1 := decRound t2 (rks.getD 1 stZero)
  addKey (invSubBytes (invShiftRows t1)) (rks.getD 0 stZero)

/-! ## CBC mode (`crypto/cipher` `NewCBCEncrypter` / `NewCBCDecrypter`)

`CryptBlocks` panics when the input length is not a multiple of the
block size; that case is modelled as `none`. -/

/-- Bytewise exclusive or. -/
def listXor (a b : List Nat) : List Nat := a.zipWith (· ^^^ ·) b

/-- Pack a 16-byte list into a state. -/
def stOfList : List Nat → St
  | [x0, x1, x2, x3, x4, x5, x6, x7, x8, x9, x10, x11, x12, x13, x14, x15] =>
    ⟨x0, x1, x2, x3, x4, x5, x6, x7, x8, x9, x10, x11, x12, x13, x14, x15⟩
  | _ => stZero

/-- Unpack a state into its 16-byte list. -/
def stList (s : St) : List Nat :=
  [s.b0, s.b1, s.b2, s.b3, s.b4, s.b5, s.b6, s.b7,
   s.b8, s.b9, s.b10, s.b11, s.b12, s.b13, s.b14, s.b15]

/-- One CBC encryption step: xor the plaintext block with the previous
ciphertext block (initially the IV), then encipher. -/
def encBlockL (rks : List St) (iv blk : List Nat) : List Nat :=
  stList (cipher rks (stOfList (listXor blk iv)))

/-- One CBC decryption step: decipher the ciphertext block, then xor
with the previous ciphertext block (initially the IV). -/
def decBlockL (rks : List St) (iv cblk : List Nat) : List Nat :=
  listXor (stList (decipher rks (stOfList cblk))) iv

/-- CBC encryption: each block is xor-ed with the previous ciphertext
block (initially the IV) and then enciphered. -/
def cbcEnc (rks : List St) : List Nat → List Nat → Option (List Nat)
  | _, [] => some []
  | iv, x0 :: x1 :: x2 :: x3 :: x4 :: x5 :: x6 :: x7 ::
      x8 :: x9 :: x10 :: x11 :: x12 :: x13 :: x14 :: x15 :: rest =>
    Option.map
      (fun cs =>
        encBlockL rks iv
          [x0, x1, x2, x3, x4, x5, x6, x7, x8, x9, x10, x11, x12, x13, x14, x15] ++ cs)
      (cbcEnc rks
        (encBlockL rks iv
          [x0, x1, x2, x3, x4, x5, x6, x7, x8, x9, x10, x11, x12, x13, x14, x15]) rest)
  | _, _ => none

/-- CBC decryption: each block is deciphered and then xor-ed with the
previous ciphertext block (initially the IV). -/
def cbcDec (rks : List St) : List Nat → List Nat → Option (List Nat)
  | _, [] => some []
  | iv, c0 :: c1 :: c2 :: c3 :: c4 :: c5 :: c6 :: c7 ::
      c8 :: c9 :: c10 :: c11 :: c12 :: c13 :: c14 :: c15 :: rest =>
    Option.map
      (fun ps =>
        decBlockL rks iv
          [c0, c1, c2, c3, c4, c5, c6, c7, c8, c9, c10, c11, c12, c13, c14, c15] ++ ps)
      (cbcDec rks
        [c0, c1, c2, c3, c4, c5, c6, c7, c8, c9, c10, c11, c12, c13, c14, c15] rest)
  | _, _ => none

/-! ## SessionID (`message.go`) -/

/-- `SessionID.Hex`: the Go format verb `%08X` applied to a `uint32`,
eight uppercase hexadecimal ASCII characters, most significant nibble
first. -/
def sessionHex (s : Nat) : List Nat :=
  [hexDigU (s / 268435456 % 16), hexDigU (s / 16777216 % 16),
   hexDigU (s / 1048576 % 16), hexDigU (s / 65536 % 16),
   hexDigU (s / 4096 % 16), hexDigU (s / 256 % 16),
   hexDigU (s / 16 % 16), hexDigU (s % 16)]

/-- `ParseID`: truncate the input to its first 8 characters, then
`strconv.ParseUint(string(data), 16, 32)` with the error discarded:
a malformed (empty or non-hex) string yields 0.  Eight hexadecimal
digits never overflow 32 bits, so no range error can occur. -/
def parseID (data : List Nat) : Nat :=
  if (data.take 8).isEmpty then 0
  else if (data.take 8).all (fun c => (hexVal c).isSome) then
    (data.take 8).foldl (fun acc c => 16 * acc + (hexVal c).getD 0) 0
  else 0

/-! ## Padding removal (`DecodeMessage`, lines 115–123)

The Go loop removes trailing bytes while the final byte's value lies
in the inclusive range 1..16. -/

/-- Predicate of the strip loop: the byte value is in 1..16. -/
def padByte (b : Nat) : Bool := 1 ≤ b && b ≤ 16

/-- Strip the trailing run of bytes whose values are in 1..16
(the padding-removal loop of `DecodeMessage`). -/
def stripPadding (l : List Nat) : List Nat :=
  (l.reverse.dropWhile padByte).reverse

/-! ## Message encryption and framing (`message.go`) -/

/-- The ASCII bytes of the fixed firmware magic string `"JiangPan"`. -/
def magicWord : List Nat := [74, 105, 97, 110, 103, 80, 97, 110]

/-- `SessionID.keyIV`: the MD5 digest of the magic word concatenated
with the session's 8-character hex form, whose first 8 raw bytes are
hex-encoded (uppercase) into the 16-character key and whose last 8 raw
bytes are hex-encoded into the 16-character IV. -/
def keyIV (s : Nat) : List Nat × List Nat :=
  let keyAndIV := md5Bytes (magicWord ++ sessionHex s)
  (hexUpper (keyAndIV.take 8), hexUpper (keyAndIV.drop 8))

/-- `SessionID.Encrypt`: AES-128-CBC encryption under the
session-derived key and IV. -/
def sessEncrypt (s : Nat) (data : List Nat) : Option (List Nat) :=
  let (key, iv) := keyIV s
  cbcEnc (roundKeys key) iv data

/-- `SessionID.Decrypt`: AES-128-CBC decryption under the
session-derived key and IV. -/
def sessDecrypt (s : Nat) (data : List Nat) : Option (List Nat) :=
  let (key, iv) := keyIV s
  cbcDec (roundKeys key) iv data

/-- Error values of the message codec.  `tooFewBytes` is the
`"too few bytes"` format error (used both by `EncodeMessage` for empty
input and by `DecodeMessage` for undersized frames), `hexFailure` the
wrapped `hex.DecodeString` error, and `decryptFailure` the failure of
the block layer (in Go a `CryptBlocks` panic on a partial block; key
setup itself cannot fail since derived keys are always 16 bytes). -/
inductive MsgError where
  | tooFewBytes
  | hexFailure
  | decryptFailure
deriving DecidableEq, Repr

/-- `EncodeMessage`: reject empty input, pad with `pad` bytes of value
`pad` where `pad = (16 - len mod 16) mod 16`, encrypt under the
session, hex-encode session and ciphertext uppercase, and append the
uppercase hex SHA-256 digest of that hex string. -/
def encodeMessage (sess : Nat) (msg : List Nat) : Except MsgError (List Nat) :=
  if msg.isEmpty then .error .tooFewBytes
  else
    let padding := (16 - msg.length % 16) % 16
    let padded := msg ++ List.replicate padding padding
    match sessEncrypt sess padded with
    | none => .error .decryptFailure
    | some out =>
      let outMsg := sessionHex sess ++ hexUpper out
      .ok (outMsg ++ hexUpper (sha256Bytes outMsg))

/-- `DecodeMessage`: parse the leading characters as the session,
hex-decode the full frame, require at least `4 + 32` raw bytes, drop
the first 4 raw bytes and the trailing 32-byte checksum (never
verified), decrypt under the parsed session and strip the padding. -/
def decodeMessage (msg : List Nat) : Except MsgError (List Nat) :=
  let sess := parseID msg
  match hexDecode msg with
  | none => .error .hexFailure
  | some data =>
    if data.length < 4 + 32 then .error .tooFewBytes
    else
      let d1 := data.drop 4
      let d2 := d1.take (d1.length - 32)
      match sessDecrypt sess d2 with
      | none => .error .decryptFailure
      | some out => .ok (stripPadding out)

/-! ## Device client (`device.go`): session lifecycle and `Set`

The `Session` type itself (`NewSession`, `Session.Increment`) is not
among the repository files available here — only its callers in
`device.go` are — so its increment operation is modelled from the
spec.  The CoAP transport and `encoding/json` are external
collaborators; the outcome of `PostWithContext` and of unmarshalling
its response payload is therefore a parameter of the `Set` step. -/

/-- Modelled from the spec: `Session.Increment`, missing from the
available sources.  The session identifier is "a 32-bit unsigned
value" that "is mutated in place via `increment()`", so incrementing
adds one with `uint32` wraparound. -/
def increment (s : Nat) : Nat := (s + 1) % 2 ^ 32

/-- The sync handshake of `New`: the device's response payload is
parsed as the authoritative counter and incremented once, giving the
connection's base session value. -/
def syncSession (resp : List Nat) : Nat := increment (parseID resp)

/-- Outcome of one `PostWithContext` to `/sys/dev/control` together
with the unmarshalling of its response: either the transport failed,
or a response arrived whose parsed acknowledgement is `none` (the JSON
did not unmarshal), `some true` (`status == "success"`) or
`some false` (any other status). -/
inductive PostOutcome where
  | transportFailure
  | response (ack : Option Bool)
deriving DecidableEq, Repr

/-- Error results of `Device.Set`. -/
inductive SetError where
  | encodeFailure (e : MsgError)
  | postFailure
  | unmarshalFailure
  | notSuccess
deriving DecidableEq, Repr

/-- One call of `Device.Set`, as a transition on the local session
counter: encode the marshalled payload `data` under the current
session, post it, and — only once the post has returned a response —
increment the session counter, before the acknowledgement is
inspected.  Returns the call's result and the new counter. -/
def setStep (sess : Nat) (data : List Nat) (o : PostOutcome) :
    Except SetError Unit × Nat :=
  match encodeMessage sess data with
  | .error e => (.error (.encodeFailure e), sess)
  | .ok _ =>
    match o with
    | .transportFailure => (.error .postFailure, sess)
    | .response ack =>
      let sess' := increment sess
      match ack with
      | none => (.error .unmarshalFailure, sess')
      | some true => (.ok (), sess')
      | some false => (.error .notSuccess, sess')

/-- The local session counter after a sequence of `Set` calls, each
given by its marshalled payload and its post outcome. -/
def runSets (sess : Nat) : List (List Nat × PostOutcome) → Nat
  | [] => sess
  | (d, o) :: rest => runSets (setStep sess d o).2 rest

/-- The number of calls of a sequence whose post reached the device
(i.e. did not fail at the transport). -/
def countPosted (calls : List (List Nat × PostOutcome)) : Nat :=
  calls.countP fun c =>
    match c.2 with
    | PostOutcome.transportFailure => false
    | PostOutcome.response _ => true

/-! ## State model (`message.go`, second revision): air quality -/

/-- `AirQuality.ToHemtjanst`: map the device-native indoor-air-quality
index to the normalized HomeKit string. -/
def airQualityToHemtjanst (a : Int) : String :=
  if a = 1 then "1"
  else if a = 2 ∨ a = 3 then "2"
  else if a = 4 ∨ a = 5 ∨ a = 6 then "3"
  else if a = 7 ∨ a = 8 ∨ a = 9 then "4"
  else if a = 10 ∨ a = 11 ∨ a = 12 then "5"
  else "5"

/-! ## Definitions following the specification's wording, for the
refinement claims.  Each is written from the spec sentence it mirrors
and is compared against the embedding of the source above. -/

/-- Every character of the string is a hexadecimal digit. -/
def HexChars (l : List Nat) : Prop := ∀ c ∈ l, (hexVal c).isSome

instance : DecidablePred HexChars := fun l =>
  inferInstanceAs (Decidable (∀ c ∈ l, (hexVal c).isSome))

/-- The wire frame as the spec describes it: `hex(session) ++
hex(ciphertext) ++ hex(sha256(hex(session) ++ hex(ciphertext)))`, all
uppercase, where the ciphertext encrypts the plaintext padded with
`pad = (16 - len mod 16) mod 16` bytes of value `pad`. -/
def frameSpec (sess : Nat) (msg : List Nat) : List Nat :=
  let pad := (16 - msg.length % 16) % 16
  let padded := msg ++ List.replicate pad pad
  let ct := (sessEncrypt sess padded).getD []
  let hexPart := sessionHex sess ++ hexUpper ct
  hexPart ++ hexUpper (sha256Bytes hexPart)

/-- Claim C5's literal reading of decoding: parse the leading 8 hex
characters as the session, hex-decode the *remainder* of the frame
(the part after those 8 characters), require at least `4 + 32` raw
bytes of that decoding, drop its first 4 raw bytes and trailing 32 raw
bytes, decrypt, strip padding. -/
def decodeRemainderClaim (msg : List Nat) : Except MsgError (List Nat) :=
  let sess := parseID (msg.take 8)
  match hexDecode (msg.drop 8) with
  | none => .error .hexFailure
  | some data =>
    if data.length < 4 + 32 then .error .tooFewBytes
    else
      match sessDecrypt sess ((data.drop 4).take (data.length - 36)) with
      | none => .error .decryptFailure
      | some out => .ok (stripPadding out)

/-- The amended description of decoding: parse the leading 8 hex
characters as the session, hex-decode the *entire* frame (so the first
4 raw bytes are exactly the raw form of the 8 session characters),
require at least `4 + 32` raw bytes, drop the first 4 raw bytes and
the trailing 32 raw bytes, decrypt under the parsed session, strip
padding.  Inputs whose remaining middle section is not a multiple of
the block size make the Go block layer panic, modelled as
`decryptFailure`. -/
def decodeFrameSpec (msg : List Nat) : Except MsgError (List Nat) :=
  let sess := parseID (msg.take 8)
  match hexDecode msg with
  | none => .error .hexFailure
  | some raw =>
    if raw.length < 4 + 32 then .error .tooFewBytes
    else
      match sessDecrypt sess ((raw.drop 4).take (raw.length - 36)) with
      | none => .error .decryptFailure
      | some out => .ok (stripPadding out)


instance {E A : Type} [DecidableEq E] [DecidableEq A] : DecidableEq (Except E A) := fun x y =>
  match x, y with
  | .error a, .error b =>
    if h : a = b then .isTrue (congrArg Except.error h)
    else .isFalse fun he => h (Except.error.inj he)
  | .ok a, .ok b =>
    if h : a = b then .isTrue (congrArg Except.ok h)
    else .isFalse fun he => h (Except.ok.inj he)
  | .error _, .ok _ => .isFalse fun he => Except.noConfusion he
  | .ok _, .error _ => .isFalse fun he => Except.noConfusion he

/-! ## Instances used by the associative-commutative reasoning below -/

instance : Std.Associative (α := Nat) (· ^^^ ·) := ⟨Nat.xor_assoc⟩

instance : Std.Commutative (α := Nat) (· ^^^ ·) := ⟨Nat.xor_comm⟩

/-! ## Lemmas: hexadecimal digits and strings -/

theorem hexDigU_range (d : Nat) (h : d < 16) :
    48 ≤ hexDigU d ∧ hexDigU d ≤ 57 ∨ 65 ≤ hexDigU d ∧ hexDigU d ≤ 70 := by
  unfold hexDigU; split <;> omega

theorem hexVal_hexDigU (d : Nat) (h : d < 16) : hexVal (hexDigU d) = some d := by
  unfold hexVal hexDigU
  split_ifs <;> first
  | (congr 1; omega)
  | omega

theorem hexVal_lt (c v : Nat) (h : hexVal c = some v) : v < 16 := by
  unfold hexVal at h
  split_ifs at h <;> simp_all <;> omega

theorem hexUpper_nil : hexUpper [] = [] := rfl

theorem hexUpper_cons (b : Nat) (l : List Nat) :
    hexUpper (b :: l) = hexDigU (b / 16) :: hexDigU (b % 16) :: hexUpper l := rfl

theorem hexUpper_append (a b : List Nat) :
    hexUpper (a ++ b) = hexUpper a ++ hexUpper b := by
  induction a with
  | nil => rfl
  | cons x t ih => simp [hexUpper_cons, ih]

theorem hexUpper_length (l : List Nat) : (hexUpper l).length = 2 * l.length := by
  induction l with
  | nil => rfl
  | cons x t ih => simp [hexUpper_cons, ih]; omega

theorem hexChars_hexUpper (l : List Nat) (h : BytesOK l) : HexChars (hexUpper l) := by
  induction l with
  | nil => intro c hc; simp [hexUpper_nil] at hc
  | cons x t ih =>
    intro c hc
    have hx : x < 256 := h x (by simp)
    rcases (by simpa [hexUpper_cons] using hc :
        c = hexDigU (x / 16) ∨ c = hexDigU (x % 16) ∨ c ∈ hexUpper t) with h1 | h1 | h1
    · rw [h1, hexVal_hexDigU _ (by omega)]; rfl
    · rw [h1, hexVal_hexDigU _ (by omega)]; rfl
    · exact ih (fun b hb => h b (by simp [hb])) c h1

theorem hexDecode_hexUpper (l : List Nat) (h : BytesOK l) :
    hexDecode (hexUpper l) = some l := by
  induction l with
  | nil => rfl
  | cons x t ih =>
    have hx : x < 256 := h x (by simp)
    have ih' := ih (fun b hb => h b (by simp [hb]))
    rw [hexUpper_cons]
    show hexDecode (hexDigU (x / 16) :: hexDigU (x % 16) :: hexUpper t) = _
    rw [hexDecode, hexVal_hexDigU _ (by omega), hexVal_hexDigU _ (by omega), ih']
    have : 16 * (x / 16) + x % 16 = x := by omega
    simp [this]

theorem hexDecode_append (a : List Nat) (h : 2 ∣ a.length) (b : List Nat) :
    hexDecode (a ++ b) =
      (hexDecode a).bind fun x => (hexDecode b).map fun y => x ++ y := by
  match a with
  | [] =>
    rw [List.nil_append]
    cases h : hexDecode b <;> simp [hexDecode, h]
  | [c] => simp at h
  | c1 :: c2 :: t =>
    have ht : 2 ∣ t.length := by simp at h; omega
    have ih := hexDecode_append t ht b
    show hexDecode (c1 :: c2 :: (t ++ b)) = _
    rw [hexDecode, ih, hexDecode]
    cases hexVal c1 <;> cases hexVal c2 <;>
      cases hexDecode t <;> cases hexDecode b <;> rfl

theorem hexDecode_odd (a : List Nat) (h : ¬ 2 ∣ a.length) : hexDecode a = none := by
  match a with
  | [] => simp at h
  | [c] => rfl
  | c1 :: c2 :: t =>
    have ht : ¬ 2 ∣ t.length := by simp at h ⊢; omega
    rw [hexDecode, hexDecode_odd t ht]
    cases hexVal c1 <;> cases hexVal c2 <;> rfl

theorem hexDecode_total (l : List Nat) (h : HexChars l) (he : 2 ∣ l.length) :
    ∃ d, hexDecode l = some d ∧ d.length = l.length / 2 ∧ BytesOK d := by
  match l with
  | [] => exact ⟨[], rfl, rfl, by intro b hb; simp at hb⟩
  | [c] => simp at he
  | c1 :: c2 :: t =>
    have ht : 2 ∣ t.length := by simp at he; omega
    obtain ⟨d, hd, hlen, hok⟩ :=
      hexDecode_total t (fun c hc => h c (by simp [hc])) ht
    obtain ⟨v1, hv1⟩ := Option.isSome_iff_exists.mp (h c1 (by simp))
    obtain ⟨v2, hv2⟩ := Option.isSome_iff_exists.mp (h c2 (by simp))
    refine ⟨(16 * v1 + v2) :: d, ?_, ?_, ?_⟩
    · rw [hexDecode, hv1, hv2, hd]
    · simp [hlen]; omega
    · intro b hb
      rcases List.mem_cons.mp hb with h1 | h1
      · have := hexVal_lt _ _ hv1
        have := hexVal_lt _ _ hv2
        omega
      · exact hok b h1

theorem hexDecode_length (l d : List Nat) (h : hexDecode l = some d) :
    d.length = l.length / 2 ∧ 2 ∣ l.length := by
  match l, h with
  | [], h =>
    have : d = [] := by simpa [hexDecode] using h.symm
    simp [this]
  | [c], h => simp [hexDecode] at h
  | c1 :: c2 :: t, h =>
    rw [hexDecode] at h
    split at h
    · next hi lo tl hv1 hv2 htl =>
      obtain ⟨h1, h2⟩ := hexDecode_length t tl htl
      have hd : d = (16 * hi + lo) :: tl := by simpa using h.symm
      subst hd
      constructor
      · simp [h1]; omega
      · simp; omega
    · simp at h

/-! ## Lemmas: ParseID and SessionID.Hex -/

theorem sessionHex_length (s : Nat) : (sessionHex s).length = 8 := rfl

theorem hexValD_lt (c : Nat) : (hexVal c).getD 0 < 16 := by
  rcases hv : hexVal c with _ | v
  · norm_num
  · simpa using hexVal_lt _ _ hv

theorem foldl_hex_lt (t : List Nat) (acc : Nat) :
    t.foldl (fun a c => 16 * a + (hexVal c).getD 0) acc < (acc + 1) * 16 ^ t.length := by
  induction t generalizing acc with
  | nil => simpa using Nat.lt_succ_self acc
  | cons c t ih =>
    have h1 := ih (16 * acc + (hexVal c).getD 0)
    have h2 := hexValD_lt c
    calc (c :: t).foldl (fun a c => 16 * a + (hexVal c).getD 0) acc
        = t.foldl (fun a c => 16 * a + (hexVal c).getD 0)
          (16 * acc + (hexVal c).getD 0) := rfl
      _ < (16 * acc + (hexVal c).getD 0 + 1) * 16 ^ t.length := h1
      _ ≤ (16 * (acc + 1)) * 16 ^ t.length := by
          have : 16 * acc + (hexVal c).getD 0 + 1 ≤ 16 * (acc + 1) := by omega
          exact Nat.mul_le_mul_right _ this
      _ = (acc + 1) * 16 ^ (c :: t).length := by
          simp [pow_succ]; ring

theorem parseID_lt (data : List Nat) : parseID data < 2 ^ 32 := by
  unfold parseID
  split
  · norm_num
  split
  · have h8 : (data.take 8).length ≤ 8 := by
      simpa using List.length_take_le (l := data) (n := 8)
    calc (data.take 8).foldl (fun a c => 16 * a + (hexVal c).getD 0) 0
        < (0 + 1) * 16 ^ (data.take 8).length := foldl_hex_lt _ 0
      _ ≤ 1 * 16 ^ 8 := by
          simpa using Nat.pow_le_pow_right (show 0 < 16 by norm_num) h8
      _ ≤ 2 ^ 32 := by norm_num
  · norm_num

theorem parseID_take8 (data : List Nat) : parseID (data.take 8) = parseID data := by
  unfold parseID
  simp [List.take_take]

/-! ## Lemmas: digest lengths and byte bounds -/

theorem md5Bytes_length (m : List Nat) : (md5Bytes m).length = 16 := rfl

theorem sha256Bytes_length (m : List Nat) : (sha256Bytes m).length = 32 := rfl

theorem md5Bytes_ok (m : List Nat) : BytesOK (md5Bytes m) := by
  intro b hb
  unfold md5Bytes at hb
  simp [wordLE] at hb
  rcases hb with h | h | h | h <;> rcases h with h | h | h | h <;> omega

theorem sha256Bytes_ok (m : List Nat) : BytesOK (sha256Bytes m) := by
  intro b hb
  unfold sha256Bytes at hb
  simp [wordBE] at hb
  rcases hb with h | h | h | h | h | h | h | h <;> rcases h with h | h | h | h <;> omega

/-! ## Claim C9: air-quality normalization -/

/-- C9: the air-quality normalization maps the device-native value
`iaql = 3` to the normalized air-quality level `"2"`. -/
theorem c9_air_quality : airQualityToHemtjanst 3 = "2" := rfl

/-! ## Claim C8: ParseID is lenient and total -/

/-- C8: `ParseID` truncates its input to the first 8 characters before
hex-decoding, and any input whose truncation contains a non-hex
character yields the zero SessionID rather than an error (`ParseID`
is total by type). -/
theorem c8_parse_lenient (data : List Nat) :
    parseID data = parseID (data.take 8) ∧
    (¬ ((data.take 8).all fun c => (hexVal c).isSome) → parseID data = 0) := by
  constructor
  · exact (parseID_take8 data).symm
  · intro h
    unfold parseID
    split_ifs <;> rfl

/-- Witness for C8 at the malformed input `"Z01"`. -/
theorem c8_parse_lenient_witness :
    parseID [90, 48, 49] = parseID ([90, 48, 49].take 8) ∧ parseID [90, 48, 49] = 0 :=
  ⟨(c8_parse_lenient [90, 48, 49]).1, (c8_parse_lenient [90, 48, 49]).2 (by decide)⟩

/-! ## Claim C10: Hex then ParseID recovers the SessionID -/

theorem parse_sessionHex (s : Nat) (h : s < 2 ^ 32) :
    parseID (sessionHex s) = s := by
  have hm : ∀ x : Nat, x % 16 < 16 := fun x => Nat.mod_lt x (by norm_num)
  unfold parseID
  rw [show (sessionHex s).take 8 = sessionHex s from rfl]
  unfold sessionHex
  simp only [List.all_cons, List.all_nil, List.foldl_cons, List.foldl_nil]
  rw [hexVal_hexDigU _ (hm _), hexVal_hexDigU _ (hm _), hexVal_hexDigU _ (hm _),
    hexVal_hexDigU _ (hm _), hexVal_hexDigU _ (hm _), hexVal_hexDigU _ (hm _),
    hexVal_hexDigU _ (hm _), hexVal_hexDigU _ (hm _)]
  simp
  omega

/-- C10: for every 32-bit SessionID, parsing its canonical 8-character
uppercase hexadecimal form recovers it exactly. -/
theorem c10_hex_parse_round_trip (s : Nat) (h : s < 2 ^ 32) :
    parseID (sessionHex s) = s :=
  parse_sessionHex s h

/-- Witness for C10 at the SessionID `0xABCD1234`. -/
theorem c10_hex_parse_round_trip_witness :
    parseID (sessionHex 2882343476) = 2882343476 :=
  c10_hex_parse_round_trip 2882343476 (by norm_num)

/-! ## Claim C6: a spurious all-0x10 block strips away -/

/-- C6: the padding-stripping step gives the same result on a 16-byte
aligned plaintext whether or not a spurious trailing block of sixteen
`0x10` bytes is appended. -/
theorem c6_padding_spurious_block (pt : List Nat) (h : 16 ∣ pt.length) :
    stripPadding (pt ++ List.replicate 16 16) = stripPadding pt := by
  unfold stripPadding
  rw [List.reverse_append, List.reverse_replicate,
    List.dropWhile_append_of_pos]
  intro a ha
  rw [List.eq_of_mem_replicate ha]
  rfl

/-- Witness for C6 at a 16-byte plaintext of `'A'` bytes. -/
theorem c6_padding_spurious_block_witness :
    stripPadding (List.replicate 16 65 ++ List.replicate 16 16) =
      stripPadding (List.replicate 16 65) :=
  c6_padding_spurious_block _ (by simp)

/-! ## Claim C3: key and IV derivation -/

/-- C3: the derived key is the uppercase hex encoding of the first 8
bytes of `MD5(magic ++ Hex(s))` (16 characters) and the IV the
uppercase hex encoding of the last 8 bytes, where the magic word is
the fixed 8-byte firmware string and `Hex(s)` the 8-character
uppercase hexadecimal form of the session. -/
theorem c3_key_iv_derivation (s : Nat) :
    keyIV s =
      (hexUpper ((md5Bytes (magicWord ++ sessionHex s)).take 8),
       hexUpper ((md5Bytes (magicWord ++ sessionHex s)).drop 8)) ∧
    (keyIV s).1.length = 16 ∧ (keyIV s).2.length = 16 ∧
    magicWord.length = 8 ∧ (sessionHex s).length = 8 ∧
    ∀ c ∈ sessionHex s, 48 ≤ c ∧ c ≤ 57 ∨ 65 ≤ c ∧ c ≤ 70 := by
  refine ⟨rfl, ?_, ?_, rfl, rfl, ?_⟩
  · show (hexUpper ((md5Bytes (magicWord ++ sessionHex s)).take 8)).length = 16
    rw [hexUpper_length, List.length_take, md5Bytes_length]
    omega
  · show (hexUpper ((md5Bytes (magicWord ++ sessionHex s)).drop 8)).length = 16
    rw [hexUpper_length, List.length_drop, md5Bytes_length]
  · intro c hc
    unfold sessionHex at hc
    simp at hc
    rcases hc with h | h | h | h | h | h | h | h <;>
      (rw [h]; exact hexDigU_range _ (Nat.mod_lt _ (by norm_num)))

/-- Witness for C3 at the SessionID 1. -/
theorem c3_key_iv_derivation_witness :
    keyIV 1 =
      (hexUpper ((md5Bytes (magicWord ++ sessionHex 1)).take 8),
       hexUpper ((md5Bytes (magicWord ++ sessionHex 1)).drop 8)) ∧
    (keyIV 1).1.length = 16 ∧ (keyIV 1).2.length = 16 ∧
    magicWord.length = 8 ∧ (sessionHex 1).length = 8 ∧
    ∀ c ∈ sessionHex 1, 48 ≤ c ∧ c ≤ 57 ∨ 65 ≤ c ∧ c ≤ 70 :=
  c3_key_iv_derivation 1

/-! ## Lemmas: GF(2^8) arithmetic of the AES MixColumns step -/

theorem xor_lt256 {x y : Nat} (hx : x < 256) (hy : y < 256) : x ^^^ y < 256 :=
  Nat.xor_lt_two_pow (n := 8) hx hy

theorem xt_lt (b : Nat) : xt b < 256 := by
  unfold xt
  split_ifs
  · exact xor_lt256 (Nat.mod_lt _ (by norm_num)) (by norm_num)
  · simpa using Nat.mod_lt (2 * b) (y := 256) (by norm_num)

set_option maxRecDepth 100000 in
set_option maxHeartbeats 16000000 in
theorem xt_xor_aux : ∀ x ∈ List.range 256, ∀ y ∈ List.range 256,
    xt (x ^^^ y) = xt x ^^^ xt y := by decide

theorem xt_xor (x y : Nat) (hx : x < 256) (hy : y < 256) :
    xt (x ^^^ y) = xt x ^^^ xt y :=
  xt_xor_aux x (List.mem_range.mpr hx) y (List.mem_range.mpr hy)

theorem mul2_lt (b : Nat) : mul2 b < 256 := xt_lt b

theorem mul3_lt {b : Nat} (hb : b < 256) : mul3 b < 256 :=
  xor_lt256 (xt_lt b) hb

theorem mul9_lt {b : Nat} (hb : b < 256) : mul9 b < 256 :=
  xor_lt256 (xt_lt _) hb

theorem mul11_lt {b : Nat} (hb : b < 256) : mul11 b < 256 :=
  xor_lt256 (xor_lt256 (xt_lt _) (xt_lt _)) hb

theorem mul13_lt {b : Nat} (hb : b < 256) : mul13 b < 256 :=
  xor_lt256 (xor_lt256 (xt_lt _) (xt_lt _)) hb

theorem mul14_lt (b : Nat) : mul14 b < 256 :=
  xor_lt256 (xor_lt256 (xt_lt _) (xt_lt _)) (xt_lt _)

theorem mul9_xor (x y : Nat) (hx : x < 256) (hy : y < 256) :
    mul9 (x ^^^ y) = mul9 x ^^^ mul9 y := by
  unfold mul9
  rw [xt_xor x y hx hy, xt_xor (xt x) (xt y) (xt_lt x) (xt_lt y),
    xt_xor (xt (xt x)) (xt (xt y)) (xt_lt _) (xt_lt _)]
  ac_rfl

theorem mul11_xor (x y : Nat) (hx : x < 256) (hy : y < 256) :
    mul11 (x ^^^ y) = mul11 x ^^^ mul11 y := by
  unfold mul11
  rw [xt_xor x y hx hy, xt_xor (xt x) (xt y) (xt_lt x) (xt_lt y),
    xt_xor (xt (xt x)) (xt (xt y)) (xt_lt _) (xt_lt _)]
  ac_rfl

theorem mul13_xor (x y : Nat) (hx : x < 256) (hy : y < 256) :
    mul13 (x ^^^ y) = mul13 x ^^^ mul13 y := by
  unfold mul13
  rw [xt_xor x y hx hy, xt_xor (xt x) (xt y) (xt_lt x) (xt_lt y),
    xt_xor (xt (xt x)) (xt (xt y)) (xt_lt _) (xt_lt _)]
  ac_rfl

theorem mul14_xor (x y : Nat) (hx : x < 256) (hy : y < 256) :
    mul14 (x ^^^ y) = mul14 x ^^^ mul14 y := by
  unfold mul14
  rw [xt_xor x y hx hy, xt_xor (xt x) (xt y) (xt_lt x) (xt_lt y),
    xt_xor (xt (xt x)) (xt (xt y)) (xt_lt _) (xt_lt _)]
  ac_rfl


theorem mul9_xor4 (x y z w : Nat) (hx : x < 256) (hy : y < 256)
    (hz : z < 256) (hw : w < 256) :
    mul9 (x ^^^ y ^^^ z ^^^ w) = mul9 x ^^^ mul9 y ^^^ mul9 z ^^^ mul9 w := by
  rw [mul9_xor (x ^^^ y ^^^ z) w (xor_lt256 (xor_lt256 hx hy) hz) hw,
    mul9_xor (x ^^^ y) z (xor_lt256 hx hy) hz, mul9_xor x y hx hy]

theorem mul11_xor4 (x y z w : Nat) (hx : x < 256) (hy : y < 256)
    (hz : z < 256) (hw : w < 256) :
    mul11 (x ^^^ y ^^^ z ^^^ w) = mul11 x ^^^ mul11 y ^^^ mul11 z ^^^ mul11 w := by
  rw [mul11_xor (x ^^^ y ^^^ z) w (xor_lt256 (xor_lt256 hx hy) hz) hw,
    mul11_xor (x ^^^ y) z (xor_lt256 hx hy) hz, mul11_xor x y hx hy]

theorem mul13_xor4 (x y z w : Nat) (hx : x < 256) (hy : y < 256)
    (hz : z < 256) (hw : w < 256) :
    mul13 (x ^^^ y ^^^ z ^^^ w) = mul13 x ^^^ mul13 y ^^^ mul13 z ^^^ mul13 w := by
  rw [mul13_xor (x ^^^ y ^^^ z) w (xor_lt256 (xor_lt256 hx hy) hz) hw,
    mul13_xor (x ^^^ y) z (xor_lt256 hx hy) hz, mul13_xor x y hx hy]

theorem mul14_xor4 (x y z w : Nat) (hx : x < 256) (hy : y < 256)
    (hz : z < 256) (hw : w < 256) :
    mul14 (x ^^^ y ^^^ z ^^^ w) = mul14 x ^^^ mul14 y ^^^ mul14 z ^^^ mul14 w := by
  rw [mul14_xor (x ^^^ y ^^^ z) w (xor_lt256 (xor_lt256 hx hy) hz) hw,
    mul14_xor (x ^^^ y) z (xor_lt256 hx hy) hz, mul14_xor x y hx hy]

/-! ## Lemmas: the InvMixColumns matrix inverts the MixColumns matrix -/

set_option maxRecDepth 10000 in
set_option maxHeartbeats 3200000 in
theorem mixGroupRowA : ∀ x ∈ List.range 256,
    mul14 (mul2 x) ^^^ mul11 x ^^^ mul13 x ^^^ mul9 (mul3 x) = x ∧
    mul14 (mul3 x) ^^^ mul11 (mul2 x) ^^^ mul13 x ^^^ mul9 x = 0 ∧
    mul14 x ^^^ mul11 (mul3 x) ^^^ mul13 (mul2 x) ^^^ mul9 x = 0 ∧
    mul14 x ^^^ mul11 x ^^^ mul13 (mul3 x) ^^^ mul9 (mul2 x) = 0 := by decide

set_option maxRecDepth 10000 in
set_option maxHeartbeats 3200000 in
theorem mixGroupRowB : ∀ x ∈ List.range 256,
    mul9 (mul2 x) ^^^ mul14 x ^^^ mul11 x ^^^ mul13 (mul3 x) = 0 ∧
    mul9 (mul3 x) ^^^ mul14 (mul2 x) ^^^ mul11 x ^^^ mul13 x = x ∧
    mul9 x ^^^ mul14 (mul3 x) ^^^ mul11 (mul2 x) ^^^ mul13 x = 0 ∧
    mul9 x ^^^ mul14 x ^^^ mul11 (mul3 x) ^^^ mul13 (mul2 x) = 0 := by decide

set_option maxRecDepth 10000 in
set_option maxHeartbeats 3200000 in
theorem mixGroupRowC : ∀ x ∈ List.range 256,
    mul13 (mul2 x) ^^^ mul9 x ^^^ mul14 x ^^^ mul11 (mul3 x) = 0 ∧
    mul13 (mul3 x) ^^^ mul9 (mul2 x) ^^^ mul14 x ^^^ mul11 x = 0 ∧
    mul13 x ^^^ mul9 (mul3 x) ^^^ mul14 (mul2 x) ^^^ mul11 x = x ∧
    mul13 x ^^^ mul9 x ^^^ mul14 (mul3 x) ^^^ mul11 (mul2 x) = 0 := by decide

set_option maxRecDepth 10000 in
set_option maxHeartbeats 3200000 in
theorem mixGroupRowD : ∀ x ∈ List.range 256,
    mul11 (mul2 x) ^^^ mul13 x ^^^ mul9 x ^^^ mul14 (mul3 x) = 0 ∧
    mul11 (mul3 x) ^^^ mul13 (mul2 x) ^^^ mul9 x ^^^ mul14 x = 0 ∧
    mul11 x ^^^ mul13 (mul3 x) ^^^ mul9 (mul2 x) ^^^ mul14 x = 0 ∧
    mul11 x ^^^ mul13 x ^^^ mul9 (mul3 x) ^^^ mul14 (mul2 x) = x := by decide

theorem invMix0_mix (a b c d : Nat) (ha : a < 256) (hb : b < 256)
    (hc : c < 256) (hd : d < 256) :
    mul14 (mul2 a ^^^ mul3 b ^^^ c ^^^ d) ^^^ mul11 (a ^^^ mul2 b ^^^ mul3 c ^^^ d) ^^^
      mul13 (a ^^^ b ^^^ mul2 c ^^^ mul3 d) ^^^ mul9 (mul3 a ^^^ b ^^^ c ^^^ mul2 d) = a := by
  rw [mul14_xor4 _ _ _ _ (mul2_lt a) (mul3_lt hb) hc hd,
    mul11_xor4 _ _ _ _ ha (mul2_lt b) (mul3_lt hc) hd,
    mul13_xor4 _ _ _ _ ha hb (mul2_lt c) (mul3_lt hd),
    mul9_xor4 _ _ _ _ (mul3_lt ha) hb hc (mul2_lt d)]
  have hA := (mixGroupRowA a (List.mem_range.mpr ha)).1
  have hB := (mixGroupRowA b (List.mem_range.mpr hb)).2.1
  have hC := (mixGroupRowA c (List.mem_range.mpr hc)).2.2.1
  have hD := (mixGroupRowA d (List.mem_range.mpr hd)).2.2.2
  have key : (mul14 (mul2 a) ^^^ mul11 a ^^^ mul13 a ^^^ mul9 (mul3 a)) ^^^
      (mul14 (mul3 b) ^^^ mul11 (mul2 b) ^^^ mul13 b ^^^ mul9 b) ^^^
      (mul14 c ^^^ mul11 (mul3 c) ^^^ mul13 (mul2 c) ^^^ mul9 c) ^^^
      (mul14 d ^^^ mul11 d ^^^ mul13 (mul3 d) ^^^ mul9 (mul2 d)) = a := by
    rw [hA, hB, hC, hD]
    simp
  refine Eq.trans ?_ key
  ac_rfl

theorem invMix1_mix (a b c d : Nat) (ha : a < 256) (hb : b < 256)
    (hc : c < 256) (hd : d < 256) :
    mul9 (mul2 a ^^^ mul3 b ^^^ c ^^^ d) ^^^ mul14 (a ^^^ mul2 b ^^^ mul3 c ^^^ d) ^^^
      mul11 (a ^^^ b ^^^ mul2 c ^^^ mul3 d) ^^^ mul13 (mul3 a ^^^ b ^^^ c ^^^ mul2 d) = b := by
  rw [mul9_xor4 _ _ _ _ (mul2_lt a) (mul3_lt hb) hc hd,
    mul14_xor4 _ _ _ _ ha (mul2_lt b) (mul3_lt hc) hd,
    mul11_xor4 _ _ _ _ ha hb (mul2_lt c) (mul3_lt hd),
    mul13_xor4 _ _ _ _ (mul3_lt ha) hb hc (mul2_lt d)]
  have hA := (mixGroupRowB a (List.mem_range.mpr ha)).1
  have hB := (mixGroupRowB b (List.mem_range.mpr hb)).2.1
  have hC := (mixGroupRowB c (List.mem_range.mpr hc)).2.2.1
  have hD := (mixGroupRowB d (List.mem_range.mpr hd)).2.2.2
  have key : (mul9 (mul2 a) ^^^ mul14 a ^^^ mul11 a ^^^ mul13 (mul3 a)) ^^^
      (mul9 (mul3 b) ^^^ mul14 (mul2 b) ^^^ mul11 b ^^^ mul13 b) ^^^
      (mul9 c ^^^ mul14 (mul3 c) ^^^ mul11 (mul2 c) ^^^ mul13 c) ^^^
      (mul9 d ^^^ mul14 d ^^^ mul11 (mul3 d) ^^^ mul13 (mul2 d)) = b := by
    rw [hA, hB, hC, hD]
    simp
  refine Eq.trans ?_ key
  ac_rfl

theorem invMix2_mix (a b c d : Nat) (ha : a < 256) (hb : b < 256)
    (hc : c < 256) (hd : d < 256) :
    mul13 (mul2 a ^^^ mul3 b ^^^ c ^^^ d) ^^^ mul9 (a ^^^ mul2 b ^^^ mul3 c ^^^ d) ^^^
      mul14 (a ^^^ b ^^^ mul2 c ^^^ mul3 d) ^^^ mul11 (mul3 a ^^^ b ^^^ c ^^^ mul2 d) = c := by
  rw [mul13_xor4 _ _ _ _ (mul2_lt a) (mul3_lt hb) hc hd,
    mul9_xor4 _ _ _ _ ha (mul2_lt b) (mul3_lt hc) hd,
    mul14_xor4 _ _ _ _ ha hb (mul2_lt c) (mul3_lt hd),
    mul11_xor4 _ _ _ _ (mul3_lt ha) hb hc (mul2_lt d)]
  have hA := (mixGroupRowC a (List.mem_range.mpr ha)).1
  have hB := (mixGroupRowC b (List.mem_range.mpr hb)).2.1
  have hC := (mixGroupRowC c (List.mem_range.mpr hc)).2.2.1
  have hD := (mixGroupRowC d (List.mem_range.mpr hd)).2.2.2
  have key : (mul13 (mul2 a) ^^^ mul9 a ^^^ mul14 a ^^^ mul11 (mul3 a)) ^^^
      (mul13 (mul3 b) ^^^ mul9 (mul2 b) ^^^ mul14 b ^^^ mul11 b) ^^^
      (mul13 c ^^^ mul9 (mul3 c) ^^^ mul14 (mul2 c) ^^^ mul11 c) ^^^
      (mul13 d ^^^ mul9 d ^^^ mul14 (mul3 d) ^^^ mul11 (mul2 d)) = c := by
    rw [hA, hB, hC, hD]
    simp
  refine Eq.trans ?_ key
  ac_rfl

theorem invMix3_mix (a b c d : Nat) (ha : a < 256) (hb : b < 256)
    (hc : c < 256) (hd : d < 256) :
    mul11 (mul2 a ^^^ mul3 b ^^^ c ^^^ d) ^^^ mul13 (a ^^^ mul2 b ^^^ mul3 c ^^^ d) ^^^
      mul9 (a ^^^ b ^^^ mul2 c ^^^ mul3 d) ^^^ mul14 (mul3 a ^^^ b ^^^ c ^^^ mul2 d) = d := by
  rw [mul11_xor4 _ _ _ _ (mul2_lt a) (mul3_lt hb) hc hd,
    mul13_xor4 _ _ _ _ ha (mul2_lt b) (mul3_lt hc) hd,
    mul9_xor4 _ _ _ _ ha hb (mul2_lt c) (mul3_lt hd),
    mul14_xor4 _ _ _ _ (mul3_lt ha) hb hc (mul2_lt d)]
  have hA := (mixGroupRowD a (List.mem_range.mpr ha)).1
  have hB := (mixGroupRowD b (List.mem_range.mpr hb)).2.1
  have hC := (mixGroupRowD c (List.mem_range.mpr hc)).2.2.1
  have hD := (mixGroupRowD d (List.mem_range.mpr hd)).2.2.2
  have key : (mul11 (mul2 a) ^^^ mul13 a ^^^ mul9 a ^^^ mul14 (mul3 a)) ^^^
      (mul11 (mul3 b) ^^^ mul13 (mul2 b) ^^^ mul9 b ^^^ mul14 b) ^^^
      (mul11 c ^^^ mul13 (mul3 c) ^^^ mul9 (mul2 c) ^^^ mul14 c) ^^^
      (mul11 d ^^^ mul13 d ^^^ mul9 (mul3 d) ^^^ mul14 (mul2 d)) = d := by
    rw [hA, hB, hC, hD]
    simp
  refine Eq.trans ?_ key
  ac_rfl


theorem getD_pred {A : Type} {P : A → Prop} (l : List A) (d : A) (i : Nat)
    (hl : ∀ x ∈ l, P x) (hd : P d) : P (l.getD i d) := by
  unfold List.getD
  cases h : l.get? i with
  | none => exact hd
  | some a => exact hl a (List.get?_mem h)

set_option maxRecDepth 10000 in
theorem sboxT_ok : ∀ x ∈ sboxT, x < 256 := by decide
set_option maxRecDepth 10000 in
set_option maxHeartbeats 1600000 in
theorem invSub_sub_aux : ∀ x ∈ List.range 256, invSub (sub x) = x := by decide

theorem sub_lt (x : Nat) : sub x < 256 :=
  getD_pred sboxT 0 x sboxT_ok (by norm_num)

theorem invSub_sub (x : Nat) (h : x < 256) : invSub (sub x) = x :=
  invSub_sub_aux x (List.mem_range.mpr h)

theorem invMix_mix (s : St) (h : StOK s) : invMixColumns (mixColumns s) = s := by
  obtain ⟨h0, h1, h2, h3, h4, h5, h6, h7, h8, h9, h10, h11, h12, h13, h14, h15⟩ := h
  cases s with
  | mk b0 b1 b2 b3 b4 b5 b6 b7 b8 b9 b10 b11 b12 b13 b14 b15 =>
    simp only [mixColumns, invMixColumns, mixCol, invMixCol, St.mk.injEq]
    exact ⟨invMix0_mix b0 b1 b2 b3 h0 h1 h2 h3, invMix1_mix b0 b1 b2 b3 h0 h1 h2 h3,
      invMix2_mix b0 b1 b2 b3 h0 h1 h2 h3, invMix3_mix b0 b1 b2 b3 h0 h1 h2 h3,
      invMix0_mix b4 b5 b6 b7 h4 h5 h6 h7, invMix1_mix b4 b5 b6 b7 h4 h5 h6 h7,
      invMix2_mix b4 b5 b6 b7 h4 h5 h6 h7, invMix3_mix b4 b5 b6 b7 h4 h5 h6 h7,
      invMix0_mix b8 b9 b10 b11 h8 h9 h10 h11, invMix1_mix b8 b9 b10 b11 h8 h9 h10 h11,
      invMix2_mix b8 b9 b10 b11 h8 h9 h10 h11, invMix3_mix b8 b9 b10 b11 h8 h9 h10 h11,
      invMix0_mix b12 b13 b14 b15 h12 h13 h14 h15, invMix1_mix b12 b13 b14 b15 h12 h13 h14 h15,
      invMix2_mix b12 b13 b14 b15 h12 h13 h14 h15, invMix3_mix b12 b13 b14 b15 h12 h13 h14 h15⟩

theorem invSubBytes_subBytes (s : St) (h : StOK s) : invSubBytes (subBytes s) = s := by
  obtain ⟨h0, h1, h2, h3, h4, h5, h6, h7, h8, h9, h10, h11, h12, h13, h14, h15⟩ := h
  cases s with
  | mk b0 b1 b2 b3 b4 b5 b6 b7 b8 b9 b10 b11 b12 b13 b14 b15 =>
    simp only [subBytes, invSubBytes, St.mk.injEq]
    exact ⟨invSub_sub _ h0, invSub_sub _ h1, invSub_sub _ h2, invSub_sub _ h3,
      invSub_sub _ h4, invSub_sub _ h5, invSub_sub _ h6, invSub_sub _ h7,
      invSub_sub _ h8, invSub_sub _ h9, invSub_sub _ h10, invSub_sub _ h11,
      invSub_sub _ h12, invSub_sub _ h13, invSub_sub _ h14, invSub_sub _ h15⟩

theorem subBytes_ok (s : St) : StOK (subBytes s) :=
  ⟨sub_lt _, sub_lt _, sub_lt _, sub_lt _, sub_lt _, sub_lt _, sub_lt _, sub_lt _,
   sub_lt _, sub_lt _, sub_lt _, sub_lt _, sub_lt _, sub_lt _, sub_lt _, sub_lt _⟩

theorem invShift_shift (s : St) : invShiftRows (shiftRows s) = s := rfl

theorem shift_ok (s : St) (h : StOK s) : StOK (shiftRows s) := by
  obtain ⟨h0, h1, h2, h3, h4, h5, h6, h7, h8, h9, h10, h11, h12, h13, h14, h15⟩ := h
  exact ⟨h0, h5, h10, h15, h4, h9, h14, h3, h8, h13, h2, h7, h12, h1, h6, h11⟩

theorem addKey_cancel (s k : St) : addKey (addKey s k) k = s := by
  cases s
  cases k
  simp [addKey, St.mk.injEq, Nat.xor_cancel_right]

theorem addKey_ok (s k : St) (hs : StOK s) (hk : StOK k) : StOK (addKey s k) := by
  obtain ⟨h0, h1, h2, h3, h4, h5, h6, h7, h8, h9, h10, h11, h12, h13, h14, h15⟩ := hs
  obtain ⟨g0, g1, g2, g3, g4, g5, g6, g7, g8, g9, g10, g11, g12, g13, g14, g15⟩ := hk
  exact ⟨xor_lt256 h0 g0, xor_lt256 h1 g1, xor_lt256 h2 g2, xor_lt256 h3 g3,
    xor_lt256 h4 g4, xor_lt256 h5 g5, xor_lt256 h6 g6, xor_lt256 h7 g7,
    xor_lt256 h8 g8, xor_lt256 h9 g9, xor_lt256 h10 g10, xor_lt256 h11 g11,
    xor_lt256 h12 g12, xor_lt256 h13 g13, xor_lt256 h14 g14, xor_lt256 h15 g15⟩

theorem mixColumns_ok (s : St) (h : StOK s) : StOK (mixColumns s) := by
  obtain ⟨h0, h1, h2, h3, h4, h5, h6, h7, h8, h9, h10, h11, h12, h13, h14, h15⟩ := h
  cases s with
  | mk b0 b1 b2 b3 b4 b5 b6 b7 b8 b9 b10 b11 b12 b13 b14 b15 =>
    simp only [mixColumns, mixCol]
    refine ⟨?_, ?_, ?_, ?_, ?_, ?_, ?_, ?_, ?_, ?_, ?_, ?_, ?_, ?_, ?_, ?_⟩
    · exact xor_lt256 (xor_lt256 (xor_lt256 (mul2_lt _) (mul3_lt h1)) h2) h3
    · exact xor_lt256 (xor_lt256 (xor_lt256 h0 (mul2_lt _)) (mul3_lt h2)) h3
    · exact xor_lt256 (xor_lt256 (xor_lt256 h0 h1) (mul2_lt _)) (mul3_lt h3)
    · exact xor_lt256 (xor_lt256 (xor_lt256 (mul3_lt h0) h1) h2) (mul2_lt _)
    · exact xor_lt256 (xor_lt256 (xor_lt256 (mul2_lt _) (mul3_lt h5)) h6) h7
    · exact xor_lt256 (xor_lt256 (xor_lt256 h4 (mul2_lt _)) (mul3_lt h6)) h7
    · exact xor_lt256 (xor_lt256 (xor_lt256 h4 h5) (mul2_lt _)) (mul3_lt h7)
    · exact xor_lt256 (xor_lt256 (xor_lt256 (mul3_lt h4) h5) h6) (mul2_lt _)
    · exact xor_lt256 (xor_lt256 (xor_lt256 (mul2_lt _) (mul3_lt h9)) h10) h11
    · exact xor_lt256 (xor_lt256 (xor_lt256 h8 (mul2_lt _)) (mul3_lt h10)) h11
    · exact xor_lt256 (xor_lt256 (xor_lt256 h8 h9) (mul2_lt _)) (mul3_lt h11)
    · exact xor_lt256 (xor_lt256 (xor_lt256 (mul3_lt h8) h9) h10) (mul2_lt _)
    · exact xor_lt256 (xor_lt256 (xor_lt256 (mul2_lt _) (mul3_lt h13)) h14) h15
    · exact xor_lt256 (xor_lt256 (xor_lt256 h12 (mul2_lt _)) (mul3_lt h14)) h15
    · exact xor_lt256 (xor_lt256 (xor_lt256 h12 h13) (mul2_lt _)) (mul3_lt h15)
    · exact xor_lt256 (xor_lt256 (xor_lt256 (mul3_lt h12) h13) h14) (mul2_lt _)

theorem stZero_ok : StOK stZero := by
  unfold StOK stZero
  norm_num

theorem encRound_ok (s k : St) (hk : StOK k) : StOK (encRound s k) :=
  addKey_ok _ _ (mixColumns_ok _ (shift_ok _ (subBytes_ok s))) hk

theorem peel (s k : St) (hk : StOK k) :
    decRound (shiftRows (subBytes (encRound s k))) k = shiftRows (subBytes s) := by
  unfold decRound
  rw [invShift_shift, invSubBytes_subBytes _ (encRound_ok s k hk)]
  unfold encRound
  rw [addKey_cancel, invMix_mix _ (shift_ok _ (subBytes_ok s))]

theorem decipher_cipher (rks : List St) (hk : ∀ k ∈ rks, StOK k) (st : St)
    (h : StOK st) : decipher rks (cipher rks st) = st := by
  have hk2 : ∀ i, StOK (rks.getD i stZero) := fun i =>
    getD_pred (P := StOK) rks stZero i hk stZero_ok
  simp only [cipher, decipher]
  rw [addKey_cancel]
  rw [peel _ _ (hk2 9), peel _ _ (hk2 8), peel _ _ (hk2 7), peel _ _ (hk2 6),
    peel _ _ (hk2 5), peel _ _ (hk2 4), peel _ _ (hk2 3), peel _ _ (hk2 2),
    peel _ _ (hk2 1)]
  rw [invShift_shift, invSubBytes_subBytes _ (addKey_ok _ _ h (hk2 0)), addKey_cancel]

theorem cipher_ok (rks : List St) (hk : ∀ k ∈ rks, StOK k) (st : St) :
    StOK (cipher rks st) := by
  have hk2 : ∀ i, StOK (rks.getD i stZero) := fun i =>
    getD_pred (P := StOK) rks stZero i hk stZero_ok
  simp only [cipher]
  exact addKey_ok _ _ (shift_ok _ (subBytes_ok _)) (hk2 10)


/-! ## Lemmas: list plumbing for 16-byte blocks -/

theorem cons_of_le {A : Type} (l : List A) (n : Nat) (h : n + 1 ≤ l.length) :
    ∃ a t, l = a :: t ∧ n ≤ t.length := by
  cases l with
  | nil => simp at h
  | cons a t => exact ⟨a, t, rfl, by simpa using h⟩

theorem explode16 (l : List Nat) (h : 16 ≤ l.length) :
    ∃ x0 x1 x2 x3 x4 x5 x6 x7 x8 x9 x10 x11 x12 x13 x14 x15 t,
      l = x0 :: x1 :: x2 :: x3 :: x4 :: x5 :: x6 :: x7 :: x8 :: x9 :: x10 ::
        x11 :: x12 :: x13 :: x14 :: x15 :: t := by
  obtain ⟨x0, l, rfl, g1⟩ := cons_of_le l 15 h
  obtain ⟨x1, l, rfl, g2⟩ := cons_of_le l 14 g1
  obtain ⟨x2, l, rfl, g3⟩ := cons_of_le l 13 g2
  obtain ⟨x3, l, rfl, g4⟩ := cons_of_le l 12 g3
  obtain ⟨x4, l, rfl, g5⟩ := cons_of_le l 11 g4
  obtain ⟨x5, l, rfl, g6⟩ := cons_of_le l 10 g5
  obtain ⟨x6, l, rfl, g7⟩ := cons_of_le l 9 g6
  obtain ⟨x7, l, rfl, g8⟩ := cons_of_le l 8 g7
  obtain ⟨x8, l, rfl, g9⟩ := cons_of_le l 7 g8
  obtain ⟨x9, l, rfl, g10⟩ := cons_of_le l 6 g9
  obtain ⟨x10, l, rfl, g11⟩ := cons_of_le l 5 g10
  obtain ⟨x11, l, rfl, g12⟩ := cons_of_le l 4 g11
  obtain ⟨x12, l, rfl, g13⟩ := cons_of_le l 3 g12
  obtain ⟨x13, l, rfl, g14⟩ := cons_of_le l 2 g13
  obtain ⟨x14, l, rfl, g15⟩ := cons_of_le l 1 g14
  obtain ⟨x15, l, rfl, g16⟩ := cons_of_le l 0 g15
  exact ⟨x0, x1, x2, x3, x4, x5, x6, x7, x8, x9, x10, x11, x12, x13, x14, x15, l, rfl⟩

theorem stList_length (s : St) : (stList s).length = 16 := rfl

theorem stOfList_stList (s : St) : stOfList (stList s) = s := rfl

theorem stList_stOfList (l : List Nat) (h : l.length = 16) :
    stList (stOfList l) = l := by
  obtain ⟨x0, x1, x2, x3, x4, x5, x6, x7, x8, x9, x10, x11, x12, x13, x14, x15, t, rfl⟩ :=
    explode16 l (by omega)
  obtain rfl : t = [] :=
    List.eq_nil_of_length_eq_zero (by simp only [List.length_cons] at h; omega)
  rfl

theorem stList_ok (s : St) (h : StOK s) : BytesOK (stList s) := by
  obtain ⟨h0, h1, h2, h3, h4, h5, h6, h7, h8, h9, h10, h11, h12, h13, h14, h15⟩ := h
  intro b hb
  simp [stList] at hb
  rcases hb with rfl | rfl | rfl | rfl | rfl | rfl | rfl | rfl | rfl | rfl | rfl |
    rfl | rfl | rfl | rfl | rfl <;> assumption

theorem stOfList_ok (l : List Nat) (h : BytesOK l) : StOK (stOfList l) := by
  unfold stOfList
  split
  · next x0 x1 x2 x3 x4 x5 x6 x7 x8 x9 x10 x11 x12 x13 x14 x15 =>
    exact ⟨h _ (by simp), h _ (by simp), h _ (by simp), h _ (by simp),
      h _ (by simp), h _ (by simp), h _ (by simp), h _ (by simp),
      h _ (by simp), h _ (by simp), h _ (by simp), h _ (by simp),
      h _ (by simp), h _ (by simp), h _ (by simp), h _ (by simp)⟩
  · exact stZero_ok

theorem listXor_length (a b : List Nat) :
    (listXor a b).length = min a.length b.length := by
  simp [listXor]

theorem listXor_ok (a b : List Nat) (ha : BytesOK a) (hb : BytesOK b) :
    BytesOK (listXor a b) := by
  induction a generalizing b with
  | nil => intro x hx; simp [listXor] at hx
  | cons p a ih =>
    cases b with
    | nil => intro x hx; simp [listXor] at hx
    | cons q b =>
      intro x hx
      rcases (by simpa [listXor] using hx : x = p ^^^ q ∨ x ∈ listXor a b) with rfl | hx2
      · exact xor_lt256 (ha p (by simp)) (hb q (by simp))
      · exact ih b (fun y hy => ha y (by simp [hy])) (fun y hy => hb y (by simp [hy])) x hx2

theorem listXor_cancel (a b : List Nat) (h : a.length ≤ b.length) :
    listXor (listXor a b) b = a := by
  induction a generalizing b with
  | nil => simp [listXor]
  | cons x a ih =>
    cases b with
    | nil => simp at h
    | cons y b =>
      show ((x ^^^ y) ^^^ y) :: listXor (listXor a b) b = x :: a
      rw [Nat.xor_cancel_right, ih b (by simpa using h)]

/-! ## Lemmas: CBC mode round trip -/

theorem encBlockL_length (rks : List St) (iv blk : List Nat) :
    (encBlockL rks iv blk).length = 16 := rfl

theorem encBlockL_ok (rks : List St) (hrk : ∀ k ∈ rks, StOK k) (iv blk : List Nat) :
    BytesOK (encBlockL rks iv blk) :=
  stList_ok _ (cipher_ok rks hrk _)

theorem decBlockL_encBlockL (rks : List St) (hrk : ∀ k ∈ rks, StOK k)
    (iv blk : List Nat) (hlen : blk.length = 16) (hb : BytesOK blk)
    (hivlen : iv.length = 16) (hivok : BytesOK iv) :
    decBlockL rks iv (encBlockL rks iv blk) = blk := by
  unfold decBlockL encBlockL
  rw [stOfList_stList,
    decipher_cipher rks hrk _ (stOfList_ok _ (listXor_ok _ _ hb hivok)),
    stList_stOfList _ (by rw [listXor_length]; omega)]
  exact listXor_cancel blk iv (by omega)

theorem cbcEnc_chunk (rks : List St) (iv blk rest : List Nat) (h : blk.length = 16) :
    cbcEnc rks iv (blk ++ rest) =
      Option.map (fun cs => encBlockL rks iv blk ++ cs)
        (cbcEnc rks (encBlockL rks iv blk) rest) := by
  obtain ⟨x0, x1, x2, x3, x4, x5, x6, x7, x8, x9, x10, x11, x12, x13, x14, x15, t, rfl⟩ :=
    explode16 blk (by omega)
  obtain rfl : t = [] :=
    List.eq_nil_of_length_eq_zero (by simp only [List.length_cons] at h; omega)
  rfl

theorem cbcDec_chunk (rks : List St) (iv cblk rest : List Nat) (h : cblk.length = 16) :
    cbcDec rks iv (cblk ++ rest) =
      Option.map (fun ps => decBlockL rks iv cblk ++ ps)
        (cbcDec rks cblk rest) := by
  obtain ⟨c0, c1, c2, c3, c4, c5, c6, c7, c8, c9, c10, c11, c12, c13, c14, c15, t, rfl⟩ :=
    explode16 cblk (by omega)
  obtain rfl : t = [] :=
    List.eq_nil_of_length_eq_zero (by simp only [List.length_cons] at h; omega)
  rfl

theorem cbc_cancel (rks : List St) (hrk : ∀ k ∈ rks, StOK k) :
    ∀ (n : Nat) (iv p : List Nat), p.length = 16 * n → BytesOK p →
      iv.length = 16 → BytesOK iv →
      ∃ c, cbcEnc rks iv p = some c ∧ c.length = p.length ∧ BytesOK c ∧
        cbcDec rks iv c = some p := by
  intro n
  induction n with
  | zero =>
    intro iv p hlen _ _ _
    obtain rfl : p = [] := List.eq_nil_of_length_eq_zero (by omega)
    exact ⟨[], rfl, rfl, by intro b hb; simp at hb, rfl⟩
  | succ n ih =>
    intro iv p hlen hp hivlen hivok
    have hsplit : p = p.take 16 ++ p.drop 16 := (List.take_append_drop 16 p).symm
    have htake : (p.take 16).length = 16 := by rw [List.length_take]; omega
    have hdroplen : (p.drop 16).length = 16 * n := by rw [List.length_drop]; omega
    have htakeok : BytesOK (p.take 16) := fun b hb => hp b (List.mem_of_mem_take hb)
    have hdropok : BytesOK (p.drop 16) := fun b hb => hp b (List.mem_of_mem_drop hb)
    obtain ⟨cs, henc, hcslen, hcsok, hdec⟩ :=
      ih (encBlockL rks iv (p.take 16)) (p.drop 16) hdroplen hdropok
        (encBlockL_length rks iv _) (encBlockL_ok rks hrk iv _)
    refine ⟨encBlockL rks iv (p.take 16) ++ cs, ?_, ?_, ?_, ?_⟩
    · conv_lhs => rw [hsplit]
      rw [cbcEnc_chunk rks iv _ _ htake, henc]
      rfl
    · rw [List.length_append, encBlockL_length rks iv _, hcslen, List.length_drop]
      omega
    · intro b hb
      rcases List.mem_append.mp hb with h1 | h1
      · exact encBlockL_ok rks hrk iv _ b h1
      · exact hcsok b h1
    · conv_rhs => rw [hsplit]
      rw [cbcDec_chunk rks iv _ cs (encBlockL_length rks iv _), hdec]
      simp only [Option.map_some']
      rw [decBlockL_encBlockL rks hrk iv _ htake htakeok hivlen hivok]


/-! ## Lemmas: the key schedule produces bytes -/

theorem bytesOK_getD (l : List Nat) (h : BytesOK l) (i : Nat) : l.getD i 0 < 256 :=
  getD_pred l 0 i h (by norm_num)

theorem xorW_ok {a b : W} (ha : WOK a) (hb : WOK b) : WOK (xorW a b) :=
  ⟨xor_lt256 ha.1 hb.1, xor_lt256 ha.2.1 hb.2.1,
   xor_lt256 ha.2.2.1 hb.2.2.1, xor_lt256 ha.2.2.2 hb.2.2.2⟩

theorem subRotW_ok (a : W) : WOK (subRotW a) :=
  ⟨sub_lt _, sub_lt _, sub_lt _, sub_lt _⟩

theorem rconT_ok : ∀ x ∈ rconT, x < 256 := by decide

theorem nextW_ok {w4 w1 : W} (h4 : WOK w4) (h1 : WOK w1) (i : Nat) :
    WOK (nextW w4 w1 i) := by
  unfold nextW
  split
  · exact xorW_ok h4 (xorW_ok (subRotW_ok _)
      ⟨getD_pred _ _ _ rconT_ok (by norm_num), by norm_num, by norm_num, by norm_num⟩)
  · exact xorW_ok h4 h1

theorem expandGo_ok : ∀ (fuel i : Nat) (win : W × W × W × W) (acc : List W),
    WOK win.1 → WOK win.2.1 → WOK win.2.2.1 → WOK win.2.2.2 →
    (∀ w ∈ acc, WOK w) → ∀ w ∈ expandGo fuel i win acc, WOK w := by
  intro fuel
  induction fuel with
  | zero =>
    intro i win acc _ _ _ _ hacc w hw
    obtain ⟨w0, w1, w2, w3⟩ := win
    rw [expandGo] at hw
    exact hacc w (by simpa using hw)
  | succ fuel ih =>
    intro i win acc h0 h1 h2 h3 hacc w hw
    obtain ⟨w0, w1, w2, w3⟩ := win
    rw [expandGo] at hw
    refine ih (i + 1) (w1, w2, w3, nextW w0 w3 i) (nextW w0 w3 i :: acc)
      h1 h2 h3 (nextW_ok h0 h3 i) ?_ w hw
    intro u hu
    rcases List.mem_cons.mp hu with rfl | hu2
    · exact nextW_ok h0 h3 i
    · exact hacc u hu2

theorem keyWords_ok (key : List Nat) (h : BytesOK key) :
    ∀ w ∈ keyWords key, WOK w := by
  intro w hw
  unfold keyWords at hw
  rcases List.mem_append.mp hw with h1 | h1
  · simp only [List.mem_cons, List.not_mem_nil, or_false] at h1
    rcases h1 with rfl | rfl | rfl | rfl <;>
      exact ⟨bytesOK_getD _ h _, bytesOK_getD _ h _, bytesOK_getD _ h _, bytesOK_getD _ h _⟩
  · exact expandGo_ok 40 4 _ []
      ⟨bytesOK_getD _ h _, bytesOK_getD _ h _, bytesOK_getD _ h _, bytesOK_getD _ h _⟩
      ⟨bytesOK_getD _ h _, bytesOK_getD _ h _, bytesOK_getD _ h _, bytesOK_getD _ h _⟩
      ⟨bytesOK_getD _ h _, bytesOK_getD _ h _, bytesOK_getD _ h _, bytesOK_getD _ h _⟩
      ⟨bytesOK_getD _ h _, bytesOK_getD _ h _, bytesOK_getD _ h _, bytesOK_getD _ h _⟩
      (by intro u hu; simp at hu) w h1

theorem stOfW_ok {a b c d : W} (ha : WOK a) (hb : WOK b) (hc : WOK c) (hd : WOK d) :
    StOK (stOfW a b c d) :=
  ⟨ha.1, ha.2.1, ha.2.2.1, ha.2.2.2, hb.1, hb.2.1, hb.2.2.1, hb.2.2.2,
   hc.1, hc.2.1, hc.2.2.1, hc.2.2.2, hd.1, hd.2.1, hd.2.2.1, hd.2.2.2⟩

theorem roundKeys_ok (key : List Nat) (h : BytesOK key) :
    ∀ k ∈ roundKeys key, StOK k := by
  intro k hk
  unfold roundKeys at hk
  simp only [List.mem_map] at hk
  obtain ⟨r, _, rfl⟩ := hk
  have hws := keyWords_ok key h
  have hdef : WOK ((0, 0, 0, 0) : W) := ⟨by norm_num, by norm_num, by norm_num, by norm_num⟩
  exact stOfW_ok (getD_pred _ _ _ hws hdef) (getD_pred _ _ _ hws hdef)
    (getD_pred _ _ _ hws hdef) (getD_pred _ _ _ hws hdef)

/-! ## Lemmas: the session-derived key and IV are 16 hex bytes -/

theorem hexDigU_lt {d : Nat} (h : d < 16) : hexDigU d < 256 := by
  unfold hexDigU; split <;> omega

theorem hexUpper_ok (l : List Nat) (h : BytesOK l) : BytesOK (hexUpper l) := by
  induction l with
  | nil => intro b hb; simp [hexUpper_nil] at hb
  | cons x t ih =>
    intro b hb
    have hx : x < 256 := h x (by simp)
    rcases (by simpa [hexUpper_cons] using hb :
        b = hexDigU (x / 16) ∨ b = hexDigU (x % 16) ∨ b ∈ hexUpper t) with h1 | h1 | h1
    · rw [h1]; exact hexDigU_lt (by omega)
    · rw [h1]; exact hexDigU_lt (by omega)
    · exact ih (fun y hy => h y (by simp [hy])) b h1

theorem keyIV_ok (s : Nat) :
    BytesOK (keyIV s).1 ∧ BytesOK (keyIV s).2 ∧
      (keyIV s).1.length = 16 ∧ (keyIV s).2.length = 16 := by
  refine ⟨?_, ?_, ?_, ?_⟩
  · exact hexUpper_ok _ fun b hb =>
      md5Bytes_ok (magicWord ++ sessionHex s) b (List.mem_of_mem_take hb)
  · exact hexUpper_ok _ fun b hb =>
      md5Bytes_ok (magicWord ++ sessionHex s) b (List.mem_of_mem_drop hb)
  · show (hexUpper ((md5Bytes (magicWord ++ sessionHex s)).take 8)).length = 16
    rw [hexUpper_length, List.length_take, md5Bytes_length]
    omega
  · show (hexUpper ((md5Bytes (magicWord ++ sessionHex s)).drop 8)).length = 16
    rw [hexUpper_length, List.length_drop, md5Bytes_length]

/-! ## Lemmas: session-level encrypt/decrypt round trip -/

theorem sessEncrypt_cancel (s : Nat) (data : List Nat) (hdl : 16 ∣ data.length)
    (hd : BytesOK data) :
    ∃ c, sessEncrypt s data = some c ∧ c.length = data.length ∧ BytesOK c ∧
      sessDecrypt s c = some data := by
  obtain ⟨kok, ivok, klen, ivlen⟩ := keyIV_ok s
  obtain ⟨n, hn⟩ := hdl
  have h := cbc_cancel (roundKeys (keyIV s).1) (roundKeys_ok _ kok) n
    (keyIV s).2 data hn hd ivlen ivok
  simpa [sessEncrypt, sessDecrypt] using h


/-! ## Lemmas: frame structure of encoded messages -/

theorem sessionHex_eq_hexUpper (s : Nat) :
    sessionHex s =
      hexUpper [s / 16777216 % 256, s / 65536 % 256, s / 256 % 256, s % 256] := by
  show _ = [hexDigU (s / 16777216 % 256 / 16), hexDigU (s / 16777216 % 256 % 16),
    hexDigU (s / 65536 % 256 / 16), hexDigU (s / 65536 % 256 % 16),
    hexDigU (s / 256 % 256 / 16), hexDigU (s / 256 % 256 % 16),
    hexDigU (s % 256 / 16), hexDigU (s % 256 % 16)]
  unfold sessionHex
  exact List.ext_getElem (by simp) (by
    intro i h1 h2
    match i with
    | 0 => exact congrArg hexDigU (by omega)
    | 1 => exact congrArg hexDigU (by omega)
    | 2 => exact congrArg hexDigU (by omega)
    | 3 => exact congrArg hexDigU (by omega)
    | 4 => exact congrArg hexDigU (by omega)
    | 5 => exact congrArg hexDigU (by omega)
    | 6 => exact congrArg hexDigU (by omega)
    | 7 => exact congrArg hexDigU (by omega))

theorem parseID_prefix8 (a b : List Nat) (ha : 8 ≤ a.length) :
    parseID (a ++ b) = parseID a := by
  unfold parseID
  rw [List.take_append_eq_append_take, show 8 - a.length = 0 by omega]
  simp

theorem parseID_sessionHex_append (s : Nat) (hs : s < 2 ^ 32) (rest : List Nat) :
    parseID (sessionHex s ++ rest) = s := by
  rw [parseID_prefix8 _ _ (le_of_eq (sessionHex_length s).symm)]
  exact parse_sessionHex s hs

theorem decodeMessage_split (s : Nat) (hs : s < 2 ^ 32) (mid tail : List Nat)
    (hmid : BytesOK mid) (htail : BytesOK tail) (htlen : tail.length = 32) :
    decodeMessage (sessionHex s ++ (hexUpper mid ++ hexUpper tail)) =
      match sessDecrypt s mid with
      | none => .error .decryptFailure
      | some out => .ok (stripPadding out) := by
  have hball : BytesOK ([s / 16777216 % 256, s / 65536 % 256, s / 256 % 256, s % 256] ++
      (mid ++ tail)) := by
    intro x hx
    rcases List.mem_append.mp hx with h1 | h1
    · simp at h1
      rcases h1 with rfl | rfl | rfl | rfl <;> omega
    · rcases List.mem_append.mp h1 with h2 | h2
      · exact hmid x h2
      · exact htail x h2
  unfold decodeMessage
  rw [parseID_sessionHex_append s hs]
  rw [sessionHex_eq_hexUpper s, ← hexUpper_append, ← hexUpper_append,
    hexDecode_hexUpper _ hball]
  have hlen : (([s / 16777216 % 256, s / 65536 % 256, s / 256 % 256, s % 256] ++
      (mid ++ tail)).length) = 4 + mid.length + 32 := by simp [htlen]; omega
  dsimp only
  rw [if_neg (by rw [hlen]; omega)]
  have hdrop : (([s / 16777216 % 256, s / 65536 % 256, s / 256 % 256, s % 256] ++
      (mid ++ tail)).drop 4) = mid ++ tail := rfl
  rw [hdrop]
  have htake : (mid ++ tail).length - 32 = mid.length := by simp [htlen]
  rw [htake, List.take_left]

theorem cbcEnc_total (rks : List St) :
    ∀ (n : Nat) (iv l : List Nat), l.length = 16 * n →
      ∃ c, cbcEnc rks iv l = some c := by
  intro n
  induction n with
  | zero =>
    intro iv l hlen
    obtain rfl : l = [] := List.eq_nil_of_length_eq_zero (by omega)
    exact ⟨[], rfl⟩
  | succ n ih =>
    intro iv l hlen
    have hsplit : l = l.take 16 ++ l.drop 16 := (List.take_append_drop 16 l).symm
    have htake : (l.take 16).length = 16 := by rw [List.length_take]; omega
    obtain ⟨c, hc⟩ := ih (encBlockL rks iv (l.take 16)) (l.drop 16)
      (by rw [List.length_drop]; omega)
    refine ⟨encBlockL rks iv (l.take 16) ++ c, ?_⟩
    conv_lhs => rw [hsplit]
    rw [cbcEnc_chunk rks iv _ _ htake, hc]
    rfl

theorem sessEncrypt_total (s : Nat) (l : List Nat) (h : 16 ∣ l.length) :
    ∃ c, sessEncrypt s l = some c := by
  obtain ⟨n, hn⟩ := h
  obtain ⟨c, hc⟩ := cbcEnc_total (roundKeys (keyIV s).1) n (keyIV s).2 l hn
  exact ⟨c, by simpa [sessEncrypt] using hc⟩

theorem padded_length (msg : List Nat) :
    16 ∣ (msg ++ List.replicate ((16 - msg.length % 16) % 16)
      ((16 - msg.length % 16) % 16)).length := by
  simp
  omega

theorem encodeMessage_eq (s : Nat) (msg : List Nat) (h : msg ≠ []) (hok : BytesOK msg) :
    ∃ ct, encodeMessage s msg =
        .ok ((sessionHex s ++ hexUpper ct) ++
          hexUpper (sha256Bytes (sessionHex s ++ hexUpper ct))) ∧
      ct.length = msg.length + (16 - msg.length % 16) % 16 ∧ BytesOK ct ∧
      sessDecrypt s ct = some (msg ++ List.replicate ((16 - msg.length % 16) % 16)
        ((16 - msg.length % 16) % 16)) := by
  have hpok : BytesOK (msg ++ List.replicate ((16 - msg.length % 16) % 16)
      ((16 - msg.length % 16) % 16)) := by
    intro b hb
    rcases List.mem_append.mp hb with h1 | h1
    · exact hok b h1
    · rw [List.eq_of_mem_replicate h1]; omega
  obtain ⟨ct, henc, hlen, hctok, hdec⟩ := sessEncrypt_cancel s _ (padded_length msg) hpok
  refine ⟨ct, ?_, ?_, hctok, hdec⟩
  · unfold encodeMessage
    rw [if_neg (by simpa using h)]
    dsimp only
    rw [henc]
  · rw [hlen]; simp

theorem decode_encode (s : Nat) (msg : List Nat) (hs : s < 2 ^ 32) (h : msg ≠ [])
    (hok : BytesOK msg) :
    (encodeMessage s msg >>= decodeMessage) =
      .ok (stripPadding (msg ++ List.replicate ((16 - msg.length % 16) % 16)
        ((16 - msg.length % 16) % 16))) := by
  obtain ⟨ct, heq, hctlen, hctok, hdec⟩ := encodeMessage_eq s msg h hok
  rw [heq]
  show decodeMessage _ = _
  rw [List.append_assoc,
    decodeMessage_split s hs ct _ hctok (sha256Bytes_ok _) (sha256Bytes_length _), hdec]

theorem stripPadding_padded (msg : List Nat) (h : msg ≠ [])
    (hlast : padByte (msg.getLastD 0) = false) :
    stripPadding (msg ++ List.replicate ((16 - msg.length % 16) % 16)
      ((16 - msg.length % 16) % 16)) = msg := by
  unfold stripPadding
  rw [List.reverse_append, List.reverse_replicate, List.dropWhile_append_of_pos]
  · cases hr : msg.reverse with
    | nil => exact absurd (by simpa using congrArg List.reverse hr) h
    | cons a t =>
      have ha : a = msg.getLastD 0 := by
        have h1 : msg.reverse.head? = some a := by rw [hr]; rfl
        rw [List.head?_reverse] at h1
        rw [List.getLastD_eq_getLast?, h1]
        rfl
      rw [List.dropWhile_cons, ha, hlast]
      simp only [Bool.false_eq_true, if_false, List.reverse_cons]
      rw [← ha]
      conv_rhs => rw [← List.reverse_reverse msg, hr, List.reverse_cons]
  · intro x hx
    have hpadnz : (16 - msg.length % 16) % 16 ≠ 0 := by
      intro h0
      rw [h0] at hx
      simp at hx
    rw [List.eq_of_mem_replicate hx]
    unfold padByte
    simp
    omega


/-! ## Claim C4: structure of the encoded frame -/

theorem ok_bind {E A B : Type} (a : A) (f : A → Except E B) :
    (Except.ok a >>= f : Except E B) = f a := rfl

/-- C4: `EncodeMessage` returns the `"too few bytes"` format error
exactly on empty plaintext; on nonempty plaintext it returns the frame
the spec describes: the plaintext padded with `pad = (16 - len mod 16)
mod 16` bytes of value `pad` (none when the length is a 16-byte
multiple), AES-128-CBC encrypted under the session-derived key and IV,
hex-encoded uppercase after the session's hex form, with the uppercase
hex SHA-256 digest of that hex string appended. -/
theorem c4_encode_frame (s : Nat) (msg : List Nat) :
    (encodeMessage s msg = .error .tooFewBytes ↔ msg = []) ∧
    (msg ≠ [] → encodeMessage s msg = .ok (frameSpec s msg)) := by
  have hmain : msg ≠ [] → encodeMessage s msg = .ok (frameSpec s msg) := by
    intro h
    obtain ⟨ct, hct⟩ := sessEncrypt_total s
      (msg ++ List.replicate ((16 - msg.length % 16) % 16) ((16 - msg.length % 16) % 16))
      (padded_length msg)
    unfold encodeMessage frameSpec
    rw [if_neg (by simpa using h)]
    dsimp only
    rw [hct]
    rfl
  refine ⟨⟨?_, ?_⟩, hmain⟩
  · intro he
    by_contra hne
    rw [hmain hne] at he
    exact absurd he (by simp)
  · intro he
    subst he
    rfl

/-- Witness for C4: the empty plaintext errors, a 1-byte plaintext
produces the spec frame. -/
theorem c4_encode_frame_witness :
    encodeMessage 1 [] = .error .tooFewBytes ∧
      encodeMessage 1 [123] = .ok (frameSpec 1 [123]) :=
  ⟨(c4_encode_frame 1 []).1.mpr rfl, (c4_encode_frame 1 [123]).2 (by simp)⟩

/-! ## Claim C1: encode/decode round trip -/

/-- C1 counterexample: the claim as stated fails.  The plaintext
`[0x01]` (length 1) does not survive the round trip: the
padding-stripping loop also consumes the plaintext byte, which itself
lies in the range 1..16, so decoding returns the empty plaintext. -/
theorem c1_round_trip_counterexample :
    (encodeMessage 7 [1] >>= decodeMessage) ≠ .ok [1] := by
  rw [decode_encode 7 [1] (by norm_num) (by simp) (by decide)]
  rw [show stripPadding ([1] ++ List.replicate ((16 - [1].length % 16) % 16)
    ((16 - [1].length % 16) % 16)) = [] from by decide]
  simp

/-- C1 (amended): for every 32-bit SessionID and every nonempty
plaintext of bytes whose final byte is not in the range 1..16 (so that
it cannot be mistaken for padding), decoding the frame produced by
encoding yields the original plaintext. -/
theorem c1_round_trip (s : Nat) (msg : List Nat) (hs : s < 2 ^ 32) (h : msg ≠ [])
    (hok : BytesOK msg) (hlast : padByte (msg.getLastD 0) = false) :
    (encodeMessage s msg >>= decodeMessage) = .ok msg := by
  rw [decode_encode s msg hs h hok, stripPadding_padded msg h hlast]

/-- Witness for C1 at session `0x12345678` and plaintext `"ok"`. -/
theorem c1_round_trip_witness :
    (encodeMessage 305419896 [111, 107] >>= decodeMessage) = .ok [111, 107] :=
  c1_round_trip 305419896 [111, 107] (by norm_num) (by simp) (by decide) (by decide)

/-! ## Claim C5: structure of decoding -/

/-- C5 counterexample: the claim as stated (hex-decode only the
remainder after the 8 session characters, then drop 4 further raw
bytes) disagrees with the code on the 72-character all-`'0'` frame:
`DecodeMessage` hex-decodes the whole frame to 36 raw bytes and
succeeds with an empty plaintext, while the claimed procedure sees
only 32 raw bytes and fails the length check. -/
theorem c5_decode_counterexample :
    decodeMessage (List.replicate 72 48) ≠ decodeRemainderClaim (List.replicate 72 48) := by
  decide

/-- C5 (amended): `DecodeMessage` parses the leading 8 hex characters
as the SessionID, hex-decodes the *entire* frame (so the first 4 raw
bytes it then drops are exactly the raw form of the session prefix,
not a separate legacy field), requires at least `4 + 32` raw bytes,
drops the first 4 and trailing 32 raw bytes, decrypts the rest under
the parsed session, and strips padding. -/
theorem c5_decode_structure (msg : List Nat) :
    decodeMessage msg = decodeFrameSpec msg := by
  unfold decodeMessage decodeFrameSpec
  rw [parseID_take8]
  cases hd : hexDecode msg with
  | none => rfl
  | some raw =>
    dsimp only
    split_ifs with h36
    · rfl
    · have harith : (raw.drop 4).length - 32 = raw.length - 36 := by
        rw [List.length_drop]
        omega
      rw [harith]

/-! ## Claim C7: the integrity suffix is never verified -/

/-- C7: two frames identical except in their trailing 64 hex
characters (both valid hex) decode to the same result: the checksum
suffix never influences `DecodeMessage`. -/
theorem c7_checksum_ignored (P S1 S2 : List Nat) (h1 : S1.length = 64)
    (h2 : S2.length = 64) (hx1 : HexChars S1) (hx2 : HexChars S2) :
    decodeMessage (P ++ S1) = decodeMessage (P ++ S2) := by
  by_cases hpe : 2 ∣ P.length
  · cases hp : hexDecode P with
    | none =>
      have e1 : hexDecode (P ++ S1) = none := by
        rw [hexDecode_append P hpe S1, hp]; rfl
      have e2 : hexDecode (P ++ S2) = none := by
        rw [hexDecode_append P hpe S2, hp]; rfl
      unfold decodeMessage
      rw [e1, e2]
    | some praw =>
      obtain ⟨r1, hr1, hl1, _⟩ := hexDecode_total S1 hx1 ⟨32, by omega⟩
      obtain ⟨r2, hr2, hl2, _⟩ := hexDecode_total S2 hx2 ⟨32, by omega⟩
      have hl1' : r1.length = 32 := by rw [hl1, h1]
      have hl2' : r2.length = 32 := by rw [hl2, h2]
      have e1 : hexDecode (P ++ S1) = some (praw ++ r1) := by
        rw [hexDecode_append P hpe S1, hp, hr1]; rfl
      have e2 : hexDecode (P ++ S2) = some (praw ++ r2) := by
        rw [hexDecode_append P hpe S2, hp, hr2]; rfl
      unfold decodeMessage
      rw [e1, e2]
      dsimp only
      have len1 : (praw ++ r1).length = praw.length + 32 := by simp [hl1']
      have len2 : (praw ++ r2).length = praw.length + 32 := by simp [hl2']
      by_cases h36 : praw.length + 32 < 36
      · rw [if_pos (by rw [len1]; omega), if_pos (by rw [len2]; omega)]
      · rw [if_neg (by rw [len1]; omega), if_neg (by rw [len2]; omega)]
        have hP8 : 8 ≤ P.length := by
          obtain ⟨hplen, _⟩ := hexDecode_length P praw hp
          omega
        rw [parseID_prefix8 P S1 hP8, parseID_prefix8 P S2 hP8]
        rw [List.drop_append_of_le_length (by omega),
          List.drop_append_of_le_length (by omega)]
        have t1 : (praw.drop 4 ++ r1).length - 32 = (praw.drop 4).length := by
          simp [hl1']
        have t2 : (praw.drop 4 ++ r2).length - 32 = (praw.drop 4).length := by
          simp [hl2']
        rw [t1, t2, List.take_left, List.take_left]
  · have ho1 : ¬ 2 ∣ (P ++ S1).length := by rw [List.length_append, h1]; omega
    have ho2 : ¬ 2 ∣ (P ++ S2).length := by rw [List.length_append, h2]; omega
    unfold decodeMessage
    rw [hexDecode_odd _ ho1, hexDecode_odd _ ho2]

/-- Witness for C7: a 104-character frame with an all-`'0'` checksum
and the same frame with an all-`'F'` checksum decode identically. -/
theorem c7_checksum_ignored_witness :
    decodeMessage (List.replicate 40 48 ++ List.replicate 64 48) =
      decodeMessage (List.replicate 40 48 ++ List.replicate 64 70) :=
  c7_checksum_ignored (List.replicate 40 48) (List.replicate 64 48)
    (List.replicate 64 70) (by simp) (by simp) (by decide) (by decide)

/-! ## Claim C2: session counter across Set calls -/

theorem encodeMessage_isOk (s : Nat) (data : List Nat) (h : data ≠ []) :
    ∃ F, encodeMessage s data = .ok F := by
  obtain ⟨ct, hct⟩ := sessEncrypt_total s
    (data ++ List.replicate ((16 - data.length % 16) % 16) ((16 - data.length % 16) % 16))
    (padded_length data)
  refine ⟨(sessionHex s ++ hexUpper ct) ++
    hexUpper (sha256Bytes (sessionHex s ++ hexUpper ct)), ?_⟩
  unfold encodeMessage
  rw [if_neg (by simpa using h)]
  dsimp only
  rw [hct]

theorem setStep_snd (sess : Nat) (data : List Nat) (o : PostOutcome) (h : data ≠ []) :
    (setStep sess data o).2 =
      match o with
      | .transportFailure => sess
      | .response _ => increment sess := by
  obtain ⟨F, hF⟩ := encodeMessage_isOk sess data h
  unfold setStep
  rw [hF]
  cases o with
  | transportFailure => rfl
  | response ack => cases ack with
    | none => rfl
    | some b => cases b <;> rfl

theorem runSets_count (calls : List (List Nat × PostOutcome)) :
    ∀ B : Nat, B < 2 ^ 32 → (∀ c ∈ calls, c.1 ≠ []) →
      runSets B calls = (B + countPosted calls) % 2 ^ 32 := by
  induction calls with
  | nil =>
    intro B hB _
    show B = (B + countPosted []) % 2 ^ 32
    rw [show countPosted [] = 0 from rfl]
    rw [Nat.add_zero, Nat.mod_eq_of_lt hB]
  | cons c rest ih =>
    intro B hB hcalls
    obtain ⟨d, o⟩ := c
    show runSets (setStep B d o).2 rest = _
    rw [setStep_snd B d o (hcalls (d, o) (by simp))]
    cases o with
    | transportFailure =>
      rw [ih B hB (fun u hu => hcalls u (by simp [hu]))]
      rw [show countPosted ((d, PostOutcome.transportFailure) :: rest) =
        countPosted rest from by simp [countPosted, List.countP_cons]]
    | response ack =>
      rw [ih (increment B) (Nat.mod_lt _ (by norm_num))
        (fun u hu => hcalls u (by simp [hu]))]
      rw [show countPosted ((d, PostOutcome.response ack) :: rest) =
        countPosted rest + 1 from by simp [countPosted, List.countP_cons]]
      unfold increment
      rw [Nat.mod_add_mod]
      omega

/-- C2 counterexample: the claim as stated fails.  On a connection
whose sync handshake on response `"0"` set the base counter, a single
`Set` whose POST fails with a transport error leaves the counter
unchanged: it does not equal base + 1. -/
theorem c2_counter_counterexample :
    runSets (syncSession [48]) [([123, 125], PostOutcome.transportFailure)] ≠
      syncSession [48] + 1 := by
  show (setStep (syncSession [48]) [123, 125] PostOutcome.transportFailure).2 ≠ _
  rw [setStep_snd _ _ _ (by simp)]
  dsimp only
  omega

/-- C2 (amended): after a sequence of `Set` calls on one connection
with base counter B from the sync handshake, the local counter equals
B plus the number of calls whose POST reached the device, modulo 2^32.
A `Set` call whose POST fails with a transport error returns before
the increment; every call that receives a response increments exactly
once, whether or not the acknowledgement is judged successful. -/
theorem c2_counter_amended (resp : List Nat) (calls : List (List Nat × PostOutcome))
    (hcalls : ∀ c ∈ calls, c.1 ≠ []) :
    runSets (syncSession resp) calls =
      (syncSession resp + countPosted calls) % 2 ^ 32 :=
  runSets_count calls (syncSession resp) (Nat.mod_lt _ (by norm_num)) hcalls

/-- Witness for C2: sync response `"0"` gives base counter 1; of four
`Set` calls one fails at the transport, one is acknowledged, one is
rejected and one returns garbage, so the counter ends at 1 + 3 = 4. -/
theorem c2_counter_amended_witness :
    runSets (syncSession [48])
      [([123, 125], PostOutcome.response (some true)),
       ([123, 125], PostOutcome.transportFailure),
       ([123, 125], PostOutcome.response (some false)),
       ([123, 125], PostOutcome.response none)] = 4 :=
  c2_counter_amended [48] _ (by decide)

end Klimat
